import Mathlib

/-!
Verification of the ResumeSharp parsing-and-scoring core.

This file gives a shallow embedding, in Lean 4, of the Python functions in
`server/app/services/utils.py`, `server/app/services/parse.py` and
`server/app/services/analyze.py` that the frozen claims are about, and proves
or refutes each claim against that embedding.

Modelling conventions:
* Python strings are Lean `String`s; character classes of the regexes are
  modelled over ASCII (all inputs exercised here are ASCII).
* Python `dict`-shaped values are modelled with the field structure of the
  pydantic schemas in `server/app/schemas.py` (the shapes in which `analyze`
  receives its inputs).
* `date.today()` is passed explicitly as a `today : PyDate` parameter.
* The external similarity function `rapidfuzz.fuzz.token_set_ratio` is passed
  explicitly as a parameter `sim : String -> String -> Rat`; nothing about its
  values is assumed unless a theorem states a hypothesis about it.
* Floating point arithmetic of the scoring pipeline is modelled over `Rat`
  (for the coverage percentages, which are ratios of small integers) and over
  `Real` (for the recency weights, which use `exp`). Python `round` is
  round-half-to-even, modelled by `pyRound` / `pyRoundR` below.
-/

namespace ResumeSharp

/-! ## Python string primitives (ASCII model) -/

/-- Python whitespace characters (ASCII). -/
def pyIsSpace (c : Char) : Bool :=
  c = ' ' || c = '\t' || c = '\n' || c = '\x0d' || c = '\x0b' || c = '\x0c'

/-- Regex word character `\w` (ASCII): letters, digits, underscore. -/
def isWordChar (c : Char) : Bool :=
  c.isAlpha || c.isDigit || c = '_'

/-- Strip characters satisfying `p` from both ends of a character list. -/
def stripWhile (p : Char → Bool) (cs : List Char) : List Char :=
  ((cs.dropWhile p).reverse.dropWhile p).reverse

/-- Python `str.strip()` (whitespace). -/
def pyStrip (s : String) : String :=
  String.mk (stripWhile pyIsSpace s.toList)

/-- Python `str.strip(chars)`: strip any of the given characters from both ends. -/
def pyStripSet (set : List Char) (s : String) : String :=
  String.mk (stripWhile (fun c => set.contains c) s.toList)

/-- Python `str.lower()` (ASCII). -/
def pyLower (s : String) : String :=
  String.mk (s.toList.map Char.toLower)

/-- Python `str.upper()`-test helper: a cased (alphabetic, in ASCII) character. -/
def isCased (c : Char) : Bool := c.isAlpha

/-- Python `str.isupper()`: at least one cased character and no lowercase one. -/
def pyIsUpper (s : String) : Bool :=
  s.toList.any isCased && s.toList.all (fun c => !isCased c || c.isUpper)

/-- Python `str.split()` with no argument: split on whitespace runs, dropping
empty pieces. -/
def pySplitWs (s : String) : List String :=
  ((s.toList.splitOnP (fun c => pyIsSpace c)).filter (· ≠ [])).map String.mk

/-- Split a character list on characters satisfying `p`, keeping empty pieces
(the semantics of `re.split` with a single-character class). -/
def splitOnPred (p : Char → Bool) (s : String) : List String :=
  (s.toList.splitOnP p).map String.mk

/-- Numeric value of a digit run. -/
def natOfDigits (cs : List Char) : Nat :=
  cs.foldl (fun a c => a * 10 + (c.toNat - 48)) 0

/-- Infix test on character lists. -/
def listInfix (needle : List Char) : List Char → Bool
  | [] => needle.isEmpty
  | c :: cs => needle.isPrefixOf (c :: cs) || listInfix needle cs

/-- Python substring test `a in b`. -/
def pyContains (hay needle : String) : Bool :=
  listInfix needle.toList hay.toList

/-- Python `str.startswith`. -/
def pyStartsWith (s pre : String) : Bool :=
  pre.toList.isPrefixOf s.toList

/-- Python `str.endswith`. -/
def pyEndsWith (s suf : String) : Bool :=
  suf.toList.isSuffixOf s.toList

/-- Python `len` on a string: number of characters. -/
def pyLen (s : String) : Nat := s.toList.length

/-- Helper of `collapseRuns`: `prev` records whether the previous character
was part of a run being collapsed. -/
def collapseRunsAux (p : Char → Bool) (r : Char) : Bool → List Char → List Char
  | _, [] => []
  | prev, c :: cs =>
    if p c then
      if prev then collapseRunsAux p r true cs
      else r :: collapseRunsAux p r true cs
    else c :: collapseRunsAux p r false cs

/-- Collapse runs of characters satisfying `p` into a single `r` character
(the semantics of `re.sub(class+, r, s)` for a one-character replacement). -/
def collapseRuns (p : Char → Bool) (r : Char) (l : List Char) : List Char :=
  collapseRunsAux p r false l

/-- Replace every character satisfying `p` by `r`
(the semantics of `re.sub(class, r, s)` for a one-character class). -/
def mapChars (p : Char → Bool) (r : Char) (cs : List Char) : List Char :=
  cs.map (fun c => if p c then r else c)

/-! ## Round-half-to-even (Python `round`) -/

/-- Python `round` on a rational, rounding halves to the nearest even integer. -/
def pyRound (x : ℚ) : ℤ :=
  let f := ⌊x⌋
  let r := x - f
  if r < 1/2 then f
  else if 1/2 < r then f + 1
  else if Even f then f else f + 1

/-- Python `round` on a real, rounding halves to the nearest even integer. -/
noncomputable def pyRoundR (x : ℝ) : ℤ :=
  let f := ⌊x⌋
  let r := x - f
  if r < 1/2 then f
  else if 1/2 < r then f + 1
  else if Even f then f else f + 1

/-! ## Dates (`utils.py`, recency helpers) -/

/-- A Python `datetime.date`. -/
structure PyDate where
  year : Nat
  month : Nat
  day : Nat
deriving DecidableEq

/-- Month-name map `_MONTH_MAP` of `utils.py`. -/
def monthMap : List (String × Nat) :=
  [("jan", 1), ("january", 1), ("feb", 2), ("february", 2),
   ("mar", 3), ("march", 3), ("apr", 4), ("april", 4), ("may", 5),
   ("jun", 6), ("june", 6), ("jul", 7), ("july", 7),
   ("aug", 8), ("august", 8), ("sep", 9), ("sept", 9), ("september", 9),
   ("oct", 10), ("october", 10), ("nov", 11), ("november", 11),
   ("dec", 12), ("december", 12)]

/-- Fullmatch of `(19|20)\d{2}`: a four-digit year starting 19 or 20. -/
def fmYear4 : List Char → Option Nat
  | [a, b, c, d] =>
    if ((a = '1' && b = '9') || (a = '2' && b = '0')) && c.isDigit && d.isDigit then
      some (natOfDigits [a, b, c, d])
    else none
  | _ => none

/-- Split a leading digit run of length 1-2 followed by `/` or `-`
(the head of the `MM/YYYY` and `MM/YY` fullmatch patterns). -/
def splitMmSep (cs : List Char) : Option (Nat × List Char) :=
  let ds := cs.takeWhile Char.isDigit
  let rest := cs.drop ds.length
  if 1 ≤ ds.length && ds.length ≤ 2 then
    match rest with
    | sep :: tail => if sep = '/' || sep = '-' then some (natOfDigits ds, tail) else none
    | [] => none
  else none

/-- Two-digit year to four digits: 00-30 maps into the 2000s, 31-99 into the 1900s. -/
def expandYy (yy : Nat) : Nat :=
  if yy ≤ 30 then 2000 + yy else 1900 + yy

/-- Fullmatch of `\d{2}`. -/
def fmTwoDigits : List Char → Option Nat
  | [a, b] => if a.isDigit && b.isDigit then some (natOfDigits [a, b]) else none
  | _ => none

/-- The trailing branches of `_parse_month_year`: two-digit year with optional
quotes, then `Mon YYYY`, then `Mon YY`. -/
def parseMonthYearTail (cs : List Char) : Option PyDate :=
  -- `'?(\d{2})'?` two-digit year only, optional surrounding quotes
  let yyCore : Option Nat :=
    match cs with
    | [a, b] => fmTwoDigits [a, b]
    | [x, a, b] =>
      if x.toNat = 39 then fmTwoDigits [a, b]
      else if b.toNat = 39 then fmTwoDigits [x, a]
      else none
    | [x, a, b, y] =>
      if x.toNat = 39 && y.toNat = 39 then fmTwoDigits [a, b] else none
    | _ => none
  match yyCore with
  | some yy => some ⟨expandYy yy, 6, 1⟩
  | none =>
    -- `([A-Za-z]+)\s+(year)` with a 4- or 2-digit year
    let letters := cs.takeWhile Char.isAlpha
    let afterLetters := cs.drop letters.length
    let ws := afterLetters.takeWhile (fun c => pyIsSpace c)
    let rest := afterLetters.drop ws.length
    if letters.length ≥ 1 && ws.length ≥ 1 then
      let name := pyLower (String.mk letters)
      match fmYear4 rest with
      | some y =>
        match monthMap.lookup name with
        | some m => some ⟨y, m, 1⟩
        | none =>
          -- falls through to the `Mon YY` pattern, which cannot match a
          -- four-digit remainder
          none
      | none =>
        match fmTwoDigits rest with
        | some yy =>
          match monthMap.lookup name with
          | some m => some ⟨expandYy yy, m, 1⟩
          | none => none
        | none => none
    else none

/-- `_parse_month_year` of `utils.py`: tolerant month/year date parsing.
Total function; unparseable inputs yield `none`. `today` stands for
`date.today()` (used by the literal input `present`). -/
def parseMonthYear (today : PyDate) (s : String) : Option PyDate :=
  if s = "" then none else
  let t := pyStrip s
  if pyLower t = "present" then some today else
  let cs := t.toList
  -- 'YYYY' full year only (mid-year fallback)
  match fmYear4 cs with
  | some y => some ⟨y, 6, 1⟩
  | none =>
  -- 'MM/YYYY' or 'MM-YYYY'
  match splitMmSep cs with
  | some (m, tail) =>
    match fmYear4 tail with
    | some y => if 1 ≤ m && m ≤ 12 then some ⟨y, m, 1⟩ else parseMonthYearTail cs
    | none =>
      -- 'MM/YY' or 'MM-YY'
      match fmTwoDigits tail with
      | some yy => if 1 ≤ m && m ≤ 12 then some ⟨expandYy yy, m, 1⟩ else parseMonthYearTail cs
      | none => parseMonthYearTail cs
  | none => parseMonthYearTail cs

/-- `_months_ago` of `utils.py`: whole months between a date and the reference
day, floored at zero. -/
def monthsAgo (ref d : PyDate) : ℤ :=
  max 0 (((ref.year : ℤ) - d.year) * 12 + ((ref.month : ℤ) - d.month))

/-! ## Resume / JD data model (shapes of `schemas.py`) -/

/-- `ResumeExperienceItem`: one experience role. The Python field `end` is
spelled `end_` (Lean keyword). -/
structure Role where
  company : String := ""
  role : String := ""
  location : Option String := none
  start : String := ""
  end_ : Option String := none
  bullets : List String := []
deriving DecidableEq

/-- `ResumeProjectItem`. -/
structure Project where
  name : String := ""
  bullets : List String := []
deriving DecidableEq

/-- `ResumeContact`. -/
structure Contact where
  name : Option String := none
  email : Option String := none
  phone : Option String := none
  links : List String := []
deriving DecidableEq

/-- `ResumeSchema`: the résumé dict passed to `analyze`. -/
structure Resume where
  contact : Option Contact := none
  summary : Option String := none
  skills : List String := []
  experience : List Role := []
  projects : Option (List Project) := none
deriving DecidableEq

/-- `JDSchema`: the job-description dict passed to `analyze`. -/
structure Jd where
  title : Option String := none
  company : Option String := none
  responsibilities : List String := []
  required : List String := []
  preferred : Option (List String) := none
  skills : List String := []
deriving DecidableEq

/-- The empty résumé dict `{}`. -/
def emptyResume : Resume := {}

/-- The empty JD dict `{}`. -/
def emptyJd : Jd := {}

/-! ## `role_recency_weight` (`utils.py`) -/

/-- Clamp a weight into `[0.15, 1.0]` as in `role_recency_weight`. -/
noncomputable def clampWeight (w : ℝ) : ℝ := max 0.15 (min 1 w)

/-- The `start` fallback branch of `role_recency_weight`: when the end date is
absent or empty, the start date is used as a weak signal (minus 12 months,
floored at 0), and with no dates at all the neutral weight 0.5 is returned. -/
noncomputable def roleRecencyWeightStart (today : PyDate) (r : Role) : ℝ :=
  if r.start ≠ "" then
    let months : ℤ :=
      match parseMonthYear today r.start with
      | some d => max (monthsAgo today d - 12) 0
      | none => max 24 0
    clampWeight (Real.exp (-(months : ℝ) / 18))
  else 0.5

/-- `role_recency_weight` of `utils.py`: exponential-decay recency weight of a
role, from its raw date strings. -/
noncomputable def roleRecencyWeight (today : PyDate) (r : Role) : ℝ :=
  match r.end_ with
  | some e =>
    if e ≠ "" then
      let months : ℤ :=
        if pyLower (pyStrip e) = "present" then 0
        else
          match parseMonthYear today e with
          | some d => monthsAgo today d
          | none => 24
      clampWeight (Real.exp (-(months : ℝ) / 18))
    else roleRecencyWeightStart today r
  | none => roleRecencyWeightStart today r

/-! ## Skill canonicalization (`utils.py`) -/

/-- `_clean_token_for_skill` of `utils.py`: lower-case, strip, drop leading
bullet/dash run, replace characters outside the allowed class (word
characters, plus, dot, hash, slash, dash, space) by spaces, collapse
whitespace. -/
def cleanTokenForSkill (s : String) : String :=
  let cs := stripWhile pyIsSpace (pyLower s).toList
  -- `re.sub(r"^[\-••]+\s*", "", t)`
  let bulls := cs.takeWhile (fun c => c = '-' || c = '•')
  let cs1 := if bulls.isEmpty then cs else (cs.drop bulls.length).dropWhile pyIsSpace
  -- `re.sub(r"[^\w\+\.#/\- ]", " ", t)`
  let cs2 := mapChars
    (fun c => !(isWordChar c || c = '+' || c = '.' || c = '#' || c = '/' ||
                c = '-' || c = ' ')) ' ' cs1
  -- `re.sub(r"\s+", " ", t).strip()`
  String.mk (stripWhile pyIsSpace (collapseRuns pyIsSpace ' ' cs2))

/-- Modelled from the spec: the static skill alias registry `ALIASES` of
`server/app/services/skills.py`; that module is not among the given sources,
so its content is reconstructed from the spec, which describes a mapping from
normalized alias tokens to one canonical skill name (for example
js to JavaScript, k8s to Kubernetes). -/
def ALIASES : List (String × List String) :=
  [("JavaScript", ["js"]),
   ("TypeScript", ["ts"]),
   ("Kubernetes", ["k8s"]),
   ("Python", ["py"]),
   ("React", ["react.js", "reactjs"]),
   ("PostgreSQL", ["postgres"]),
   ("AWS", ["amazon web services"])]

/-- `build_canonical_maps` of `utils.py`: for each canonical name, map the
cleaned canonical name and each cleaned alias to the canonical name. Entries
are appended in iteration order; a later binding overwrites an earlier one
(dict semantics), so lookups read the list from the right. -/
def buildCanonicalMaps : List (String × String) :=
  ALIASES.foldl
    (fun acc p =>
      (acc ++ [(cleanTokenForSkill p.1, p.1)])
        ++ p.2.map (fun a => (cleanTokenForSkill a, p.1)))
    []

/-- Python dict lookup over an assoc list where later bindings win. -/
def dictGet (m : List (String × String)) (k : String) : Option String :=
  m.foldl (fun acc p => if p.1 = k then some p.2 else acc) none

/-- Canonicalization of a single term inside `canonicalize_terms`:
`canon_for.get(n, n)` for the cleaned token `n`. -/
def canonOfTerm (t : String) : String :=
  let n := cleanTokenForSkill t
  (dictGet buildCanonicalMaps n).getD n

/-- One step of the `canonicalize_terms` loop: append the canonical form if
it is new and non-empty. -/
def canonStep (out : List String) (t : String) : List String :=
  if canonOfTerm t ∉ out ∧ canonOfTerm t ≠ "" then out ++ [canonOfTerm t]
  else out

/-- `canonicalize_terms` of `utils.py`: map known aliases to canonical
skills, keep unknown strings cleaned, deduplicate preserving first-seen
order. -/
def canonicalizeTerms (terms : List String) : List String :=
  terms.foldl canonStep []

/-- `fuzzy_contains_canonical` of `utils.py` (default threshold 90), with the
external `rapidfuzz` scorer passed as `sim`. -/
def fuzzyContainsCanonical (sim : String → String → ℚ) (needle : String)
    (haystack : List String) : Bool :=
  haystack.contains needle || haystack.any (fun h => 90 ≤ sim needle h)

/-! ## Section segmentation (`utils.py`) -/

/-- `SECTION_ALIASES` of `utils.py`. -/
def SECTION_ALIASES : List (String × List String) :=
  [("summary", ["summary", "profile", "about", "objective"]),
   ("skills", ["skills", "technologies", "tech skills", "technical skills",
               "tooling"]),
   ("experience", ["experience", "work experience", "professional experience",
                   "employment"]),
   ("projects", ["projects", "personal projects", "selected projects",
                 "independent projects"]),
   ("education", ["education", "academics"]),
   ("certifications", ["certifications", "certs"]),
   ("awards", ["awards", "honors", "achievements"]),
   ("publications", ["publications", "papers", "articles"]),
   ("courses", ["courses", "relevant coursework"]),
   ("volunteering", ["volunteering", "volunteer experience", "community"]),
   ("leadership", ["leadership", "activities", "extracurricular",
                   "affiliations"]),
   ("links", ["links", "profiles"]),
   ("responsibilities", ["responsibilities", "what you\x27ll do",
                         "what you will do"]),
   ("requirements", ["requirements", "qualifications", "what you\x27ll need",
                     "you\u2019ll need"]),
   ("preferred", ["preferred", "nice to have", "bonus", "good to have"])]

/-- `guess_section_name` of `utils.py`: exact alias match, then loose
substring match, else the raw name lower-cased with colons stripped. -/
def guessSectionName (raw : String) : String :=
  let key := pyStripSet [':'] (pyLower (pyStrip raw))
  match SECTION_ALIASES.find?
      (fun p => key == p.1 || p.2.any (fun a => key == a)) with
  | some p => p.1
  | none =>
    match SECTION_ALIASES.find?
        (fun p => (p.1 :: p.2).any (fun a => pyContains key a)) with
    | some p => p.1
    | none => pyLower (pyStripSet [':'] raw)

/-- The `is_header` predicate inside `split_sections`: trailing colon under 80
characters, known section name, or a short ALL-CAPS line. -/
def isHeaderLine (h : String) : Bool :=
  let hs := pyStrip h
  if hs = "" then false
  else if pyEndsWith hs ":" && decide (pyLen hs < 80) then true
  else if (SECTION_ALIASES.map Prod.fst).contains (pyLower hs) then true
  else if decide (pyLen hs ≤ 40) && pyIsUpper hs then true
  else false

/-- Lookup in the ordered section map (keys are unique by construction). -/
def getSec : List (String × List String) → String → Option (List String)
  | [], _ => none
  | p :: m, k => if p.1 = k then some p.2 else getSec m k

/-- Python `dict.setdefault(k, [])`: add an empty bucket if the key is
absent. -/
def setdefault : List (String × List String) → String → List (String × List String)
  | [], k => [(k, [])]
  | p :: m, k => if p.1 = k then p :: m else p :: setdefault m k

/-- Python `sections.setdefault(k, []).append(v)`: append `v` to the bucket
of `k`, creating the bucket if absent. -/
def appendLine : List (String × List String) → String → String → List (String × List String)
  | [], k, v => [(k, [v])]
  | p :: m, k, v => if p.1 = k then (p.1, p.2 ++ [v]) :: m else p :: appendLine m k v

/-- The loop of `split_sections`: classify each line as header or body. -/
def splitSectionsGo : List String → String → List (String × List String) → List (String × List String)
  | [], _, m => m
  | ln :: rest, current, m =>
    let h := pyStrip ln
    if isHeaderLine h then
      let cur := guessSectionName (pyStripSet [':'] h)
      splitSectionsGo rest cur (setdefault m cur)
    else
      splitSectionsGo rest current (appendLine m current ln)

/-- `split_sections` of `utils.py`: ordered map from section name to body
lines; lines before the first header fall into the `unknown` bucket. -/
def splitSections (lines : List String) : List (String × List String) :=
  splitSectionsGo lines "unknown" []

/-- The flattened body lines of a section map. -/
def sectionBodies (m : List (String × List String)) : List String :=
  (m.map Prod.snd).flatten

/-! ## Text normalization and bullets (`utils.py`) -/

/-- Python `str.rstrip()`. -/
def pyRstrip (s : String) : String :=
  String.mk ((s.toList.reverse.dropWhile pyIsSpace).reverse)

/-- Python `str.rstrip(chars)`. -/
def pyRstripSet (set : List Char) (s : String) : String :=
  String.mk ((s.toList.reverse.dropWhile (fun c => set.contains c)).reverse)

/-- CRLF and CR to LF, as in the first line of `normalize_text`. -/
def crlfFix : List Char → List Char
  | [] => []
  | '\x0d' :: '\n' :: cs => '\n' :: crlfFix cs
  | '\x0d' :: cs => '\n' :: crlfFix cs
  | c :: cs => c :: crlfFix cs

/-- Emit a newline run: runs of three or more blank-line newlines collapse to
two (`re.sub(r"\n{3,}", "\n\n", s)`). -/
def nlEmit (n : Nat) : List Char :=
  List.replicate (min n 2) '\n'

/-- Helper of `collapseNewlines`: `n` counts pending newlines. -/
def collapseNlAux : Nat → List Char → List Char
  | n, [] => nlEmit n
  | n, c :: cs =>
    if c = '\n' then collapseNlAux (n + 1) cs
    else nlEmit n ++ (c :: collapseNlAux 0 cs)

/-- `normalize_text` of `utils.py`: line endings to LF, the `•` bullet
substitution (the identity in this model, as both sides are the same
character), horizontal whitespace runs collapsed to one space, three or more
newlines collapsed to two, and the result stripped. -/
def normalizeText (s : String) : String :=
  let cs := crlfFix s.toList
  let cs2 := collapseRuns (fun c => c = ' ' || c = '\t') ' ' cs
  let cs3 := collapseNlAux 0 cs2
  String.mk (stripWhile pyIsSpace cs3)

/-- `txt.split("\n")`, keeping empty pieces (Python `str.split` with an
explicit separator). -/
def splitLines (s : String) : List String :=
  (s.toList.splitOnP (· = '\n')).map String.mk

/-- The single-character bullet markers of `BULLET_PREFIX`
(`•` is the same character as the bullet glyph). -/
def bulletMarkChars : List Char := ['•', '-', '–', '—', '*']

/-- Match `BULLET_PREFIX` (`^\s*([•\-–—\*•]|\d+\.)\s+`) at the start of
a line; on success return the remainder after the match. -/
def bulletPrefixSplit (cs : List Char) : Option (List Char) :=
  let afterWs := cs.dropWhile pyIsSpace
  let afterMark : Option (List Char) :=
    match afterWs with
    | [] => none
    | c :: rest =>
      if bulletMarkChars.contains c then some rest
      else
        let ds := (c :: rest).takeWhile Char.isDigit
        if ds.length ≥ 1 then
          match (c :: rest).drop ds.length with
          | '.' :: rest2 => some rest2
          | _ => none
        else none
  match afterMark with
  | some rest =>
    if rest.takeWhile pyIsSpace ≠ [] then some (rest.dropWhile pyIsSpace)
    else none
  | none => none

/-- `is_bullet` of `utils.py`. -/
def isBullet (s : String) : Bool :=
  (bulletPrefixSplit s.toList).isSome

/-- `strip_bullet` of `utils.py`: remove the bullet prefix and strip. -/
def stripBullet (s : String) : String :=
  match bulletPrefixSplit s.toList with
  | some rest => String.mk (stripWhile pyIsSpace rest)
  | none => pyStrip s

/-- One step of the `collect_bullets` loop over `(out, buf)`. -/
def collectBulletsStep (st : List String × List String) (ln : String) :
    List String × List String :=
  let flush := fun (st : List String × List String) =>
    if st.2 ≠ [] then (st.1 ++ [pyStrip (String.intercalate " " st.2)], ([] : List String))
    else st
  if isBullet ln then
    let st1 := flush st
    (st1.1, [stripBullet ln])
  else if pyStrip ln = "" then flush st
  else if st.2 ≠ [] then (st.1, st.2 ++ [pyStrip ln])
  else (st.1, [pyStrip ln])

/-- `collect_bullets` of `utils.py`: group bullet lines with their
continuation lines, then drop one-character artifacts. -/
def collectBullets (block : List String) : List String :=
  let st := block.foldl collectBulletsStep ([], [])
  let out := if st.2 ≠ [] then st.1 ++ [pyStrip (String.intercalate " " st.2)] else st.1
  out.filter (fun b => pyLen b > 1)

/-! ## Date ranges and role headers (`utils.py`) -/

/-- Month-name alternation of the `MONTH` regex fragment, in source order. -/
def monthNames : List String :=
  ["Jan", "Feb", "Mar", "Apr", "May", "Jun", "Jul", "Aug", "Sep", "Sept",
   "Oct", "Nov", "Dec", "January", "February", "March", "April", "May",
   "June", "July", "August", "September", "October", "November", "December"]

/-- Dash characters of the `DASH` regex fragment. -/
def dashChars : List Char := ['-', '–', '—']

/-- Match `YEAR` (`(19|20)\d{2}`) as a prefix; return matched digits and rest. -/
def pYear4 : List Char → Option (List Char × List Char)
  | a :: b :: c :: d :: rest =>
    if ((a = '1' && b = '9') || (a = '2' && b = '0')) && c.isDigit && d.isDigit then
      some ([a, b, c, d], rest)
    else none
  | _ => none

/-- Match `MONTH\s+YEAR` as a prefix (with the regex alternation order of the
month names); return matched text and rest. -/
def pMonthYear (cs : List Char) : Option (List Char × List Char) :=
  monthNames.findSome? fun name =>
    if name.toList.isPrefixOf cs then
      let r1 := cs.drop name.length
      let ws := r1.takeWhile pyIsSpace
      if ws.length ≥ 1 then
        match pYear4 (r1.drop ws.length) with
        | some (y, r3) => some (name.toList ++ ws ++ y, r3)
        | none => none
      else none
    else none

/-- Match `DASH` (`[ \t]*[-–—][ \t]*`) as a prefix; return the rest. -/
def pDash (cs : List Char) : Option (List Char) :=
  let t := cs.dropWhile (fun c => c = ' ' || c = '\t')
  match t with
  | d :: rest =>
    if dashChars.contains d then some (rest.dropWhile (fun c => c = ' ' || c = '\t'))
    else none
  | [] => none

/-- Match a literal string as a prefix; return the rest. -/
def pLit (lit : String) (cs : List Char) : Option (List Char) :=
  if lit.toList.isPrefixOf cs then some (cs.drop lit.length) else none

/-- Match `\d{1,2}[/\-]YEAR` as a prefix (greedy two digits, then one). -/
def pMmYear (cs : List Char) : Option (List Char × List Char) :=
  let tryK := fun (k : Nat) =>
    let ds := cs.take k
    if ds.length = k ∧ ds.all Char.isDigit then
      match cs.drop k with
      | sep :: rest =>
        if sep = '/' ∨ sep = '-' then
          match pYear4 rest with
          | some (y, r) => some (ds ++ sep :: y, r)
          | none => none
        else none
      | [] => none
    else none
  (tryK 2).orElse (fun _ => tryK 1)

/-- Match exactly two digits as a prefix. -/
def pTwo : List Char → Option (List Char × List Char)
  | a :: b :: rest => if a.isDigit && b.isDigit then some ([a, b], rest) else none
  | _ => none

/-- Match `\d{1,2}[/\-]\d{2}` as a prefix (the `MM/YY` side of the range). -/
def pMmYy (cs : List Char) : Option (List Char × List Char) :=
  let tryK := fun (k : Nat) =>
    let ds := cs.take k
    if ds.length = k ∧ ds.all Char.isDigit then
      match cs.drop k with
      | sep :: rest =>
        if sep = '/' ∨ sep = '-' then
          match pTwo rest with
          | some (y, r) => some (ds ++ sep :: y, r)
          | none => none
        else none
      | [] => none
    else none
  (tryK 2).orElse (fun _ => tryK 1)

/-- Alternative 1 of `DATE_RANGE_RX`: `(MONTH YEAR) DASH (Present|present|MONTH YEAR)`. -/
def dateAlt1 (cs : List Char) : Option ((String × String) × List Char) :=
  match pMonthYear cs with
  | some (g1, r1) =>
    match pDash r1 with
    | some r2 =>
      match pLit "Present" r2 with
      | some r3 => some ((String.mk g1, "Present"), r3)
      | none =>
        match pLit "present" r2 with
        | some r3 => some ((String.mk g1, "present"), r3)
        | none =>
          match pMonthYear r2 with
          | some (g2, r3) => some ((String.mk g1, String.mk g2), r3)
          | none => none
    | none => none
  | none => none

/-- Alternative 2 of `DATE_RANGE_RX`: `(YEAR) DASH (Present|present|YEAR)`. -/
def dateAlt2 (cs : List Char) : Option ((String × String) × List Char) :=
  match pYear4 cs with
  | some (g1, r1) =>
    match pDash r1 with
    | some r2 =>
      match pLit "Present" r2 with
      | some r3 => some ((String.mk g1, "Present"), r3)
      | none =>
        match pLit "present" r2 with
        | some r3 => some ((String.mk g1, "present"), r3)
        | none =>
          match pYear4 r2 with
          | some (g2, r3) => some ((String.mk g1, String.mk g2), r3)
          | none => none
    | none => none
  | none => none

/-- Alternative 3 of `DATE_RANGE_RX`:
`(\d{1,2}[/\-]YEAR) DASH (\d{1,2}[/\-]YEAR|Present|present)`. -/
def dateAlt3 (cs : List Char) : Option ((String × String) × List Char) :=
  match pMmYear cs with
  | some (g1, r1) =>
    match pDash r1 with
    | some r2 =>
      match pMmYear r2 with
      | some (g2, r3) => some ((String.mk g1, String.mk g2), r3)
      | none =>
        match pLit "Present" r2 with
        | some r3 => some ((String.mk g1, "Present"), r3)
        | none =>
          match pLit "present" r2 with
          | some r3 => some ((String.mk g1, "present"), r3)
          | none => none
    | none => none
  | none => none

/-- Alternative 4 of `DATE_RANGE_RX`:
`(\d{1,2}[/\-]\d{2}) DASH (\d{1,2}[/\-]\d{2}|Present|present)`. -/
def dateAlt4 (cs : List Char) : Option ((String × String) × List Char) :=
  match pMmYy cs with
  | some (g1, r1) =>
    match pDash r1 with
    | some r2 =>
      match pMmYy r2 with
      | some (g2, r3) => some ((String.mk g1, String.mk g2), r3)
      | none =>
        match pLit "Present" r2 with
        | some r3 => some ((String.mk g1, "Present"), r3)
        | none =>
          match pLit "present" r2 with
          | some r3 => some ((String.mk g1, "present"), r3)
          | none => none
    | none => none
  | none => none

/-- Match an optional quote then exactly two digits, for alternative 5. -/
def pOptQuoteTwo (cs : List Char) : Option (List Char × List Char) :=
  match cs with
  | q :: rest => if q.toNat = 39 then pTwo rest else pTwo cs
  | [] => none

/-- Alternative 5 of `DATE_RANGE_RX`: `'?(\d{2}) DASH '?(\d{2})`; as in
`find_date_range`, the returned group strings carry a leading quote. -/
def dateAlt5 (cs : List Char) : Option ((String × String) × List Char) :=
  match pOptQuoteTwo cs with
  | some (g1, r1) =>
    match pDash r1 with
    | some r2 =>
      match pOptQuoteTwo r2 with
      | some (g2, r3) =>
        some ((String.mk (Char.ofNat 39 :: g1), String.mk (Char.ofNat 39 :: g2)), r3)
      | none => none
    | none => none
  | none => none

/-- Try the five alternatives of `DATE_RANGE_RX` in order at one position. -/
def dateAlts (cs : List Char) : Option ((String × String) × List Char) :=
  (dateAlt1 cs).orElse fun _ =>
  (dateAlt2 cs).orElse fun _ =>
  (dateAlt3 cs).orElse fun _ =>
  (dateAlt4 cs).orElse fun _ =>
  dateAlt5 cs

/-- Leftmost match of `DATE_RANGE_RX`: returns the text before the match, the
two date groups, and the text after the match. -/
def dateRangeScan : List Char → Option (List Char × (String × String) × List Char)
  | [] => none
  | c :: cs =>
    match dateAlts (c :: cs) with
    | some (g, rest) => some ([], g, rest)
    | none =>
      match dateRangeScan cs with
      | some (pre, g, rest) => some (c :: pre, g, rest)
      | none => none

/-- `find_date_range` of `utils.py`: the two matched group strings, with a
`present` end normalized to `Present`, both stripped. -/
def findDateRange (s : String) : Option (String × String) :=
  match dateRangeScan s.toList with
  | some (_, (g1, g2), _) =>
    let e := if pyLower g2 = "present" then "Present" else g2
    some (pyStrip g1, pyStrip e)
  | none => none

/-- Remove every (non-overlapping, left-to-right) `DATE_RANGE_RX` match; the
fuel argument is the initial character count, which suffices because every
match consumes at least one character. -/
def removeDateRangesFuel : Nat → List Char → List Char
  | 0, cs => cs
  | n + 1, cs =>
    match dateRangeScan cs with
    | some (pre, _, rest) => pre ++ removeDateRangesFuel n rest
    | none => cs

/-- `strip_date_range` of `utils.py`: `DATE_RANGE_RX.sub("", s).strip(" -–—•·")`. -/
def stripDateRange (s : String) : String :=
  pyStripSet [' ', '-', '–', '—', '•', '·']
    (String.mk (removeDateRangesFuel s.toList.length s.toList))

/-- `ROLE_HINTS` of `utils.py`. -/
def ROLE_HINTS : List String :=
  ["engineer", "developer", "research", "assistant", "intern", "analyst",
   "scientist", "manager", "fellow", "consultant", "lead", "architect"]

/-- `likely_role_header` of `utils.py`: a non-bullet line with a date range,
or a short line containing a role keyword. -/
def likelyRoleHeader (s : String) : Bool :=
  let t := pyStrip s
  if t = "" ∨ isBullet t then false
  else if (findDateRange t).isSome then true
  else ROLE_HINTS.any (fun h => pyContains (pyLower t) h)
    && decide ((pySplitWs t).length ≤ 12)

/-- Try `LOCATION_RX` (`\b(Remote|[A-Z][a-zA-Z]+,\s*[A-Z]{2})\b`) at one
position (the word boundary before the position is checked by the caller). -/
def tryLocAt (cs : List Char) : Option (List Char) :=
  let remote : Option (List Char) :=
    if ("Remote").toList.isPrefixOf cs then
      match cs.drop 6 with
      | [] => some ("Remote").toList
      | c :: _ => if isWordChar c then none else some ("Remote").toList
    else none
  remote.orElse fun _ =>
    match cs with
    | c0 :: rest =>
      if c0.isAlpha ∧ c0.isUpper then
        let letters := rest.takeWhile Char.isAlpha
        if letters.length ≥ 1 then
          match rest.drop letters.length with
          | ',' :: r2 =>
            let ws := r2.takeWhile pyIsSpace
            match r2.drop ws.length with
            | u1 :: u2 :: r4 =>
              if (u1.isAlpha ∧ u1.isUpper) ∧ (u2.isAlpha ∧ u2.isUpper) then
                match r4 with
                | [] => some (c0 :: letters ++ ',' :: ws ++ [u1, u2])
                | c :: _ =>
                  if isWordChar c then none
                  else some (c0 :: letters ++ ',' :: ws ++ [u1, u2])
              else none
            | _ => none
          | _ => none
        else none
      else none
    | [] => none

/-- Leftmost `LOCATION_RX` match, tracking the previous character for the
leading word boundary. -/
def locScanAux (prev : Option Char) : List Char → Option (List Char)
  | [] => none
  | c :: cs =>
    let boundaryOk : Bool :=
      match prev with
      | none => true
      | some p => !isWordChar p
    match (if boundaryOk then tryLocAt (c :: cs) else none) with
    | some m => some m
    | none => locScanAux (some c) cs

/-- `extract_location` of `utils.py`. -/
def extractLocation (s : String) : Option String :=
  (locScanAux none s.toList).map String.mk

/-! ## Experience role parsing (`parse.py`) -/

/-- Python `str.replace(sub, repl)`: replace all non-overlapping occurrences
left to right. The fuel is the character count, sufficient because every step
consumes at least one character. -/
def replaceAllFuel (sub repl : List Char) : Nat → List Char → List Char
  | _, [] => []
  | 0, cs => cs
  | n + 1, c :: cs =>
    if sub ≠ [] ∧ sub.isPrefixOf (c :: cs) then
      repl ++ replaceAllFuel sub repl n ((c :: cs).drop sub.length)
    else c :: replaceAllFuel sub repl n cs

/-- Case-insensitive prefix test (ASCII). -/
def ciPrefixOf (lit : List Char) (cs : List Char) : Bool :=
  decide ((cs.take lit.length).map Char.toLower = lit.map Char.toLower)
    && decide (lit.length ≤ cs.length)

/-- Group 2 of the preprocessing `role_pattern` of `parse.py`
(`_preprocess_experience_lines`):
`\b(?:Jan|...|Dec)[a-zA-Z]*\s+\d{4}\s*[-–—]\s*(?:Present|\w+\s+\d{4})\b`,
case-insensitive (the leading boundary is checked by the caller). Returns the
matched text and the rest. -/
def rpDateAt (cs : List Char) : Option (List Char × List Char) :=
  let shortMonths : List String :=
    ["Jan", "Feb", "Mar", "Apr", "May", "Jun", "Jul", "Aug", "Sep", "Oct",
     "Nov", "Dec"]
  let finish := fun (rest : List Char) =>
    some (cs.take (cs.length - rest.length), rest)
  match shortMonths.findSome? (fun m =>
      if ciPrefixOf m.toList cs then some m.length else none) with
  | none => none
  | some mlen =>
    let r0 := cs.drop mlen
    let letters := r0.takeWhile Char.isAlpha
    let r1 := r0.drop letters.length
    let ws1 := r1.takeWhile pyIsSpace
    if ws1.length ≥ 1 then
      let r2 := r1.drop ws1.length
      let d4 := r2.take 4
      if d4.length = 4 ∧ d4.all Char.isDigit then
        let r3 := r2.drop 4
        let ws2 := r3.takeWhile pyIsSpace
        match r3.drop ws2.length with
        | d :: r4 =>
          if dashChars.contains d then
            let r5 := r4.dropWhile pyIsSpace
            if ciPrefixOf ("Present").toList r5 then
              match r5.drop 7 with
              | [] => finish (r5.drop 7)
              | c :: _ => if isWordChar c then none else finish (r5.drop 7)
            else
              let w := r5.takeWhile isWordChar
              if w.length ≥ 1 then
                let r6 := r5.drop w.length
                let ws3 := r6.takeWhile pyIsSpace
                if ws3.length ≥ 1 then
                  let r7 := r6.drop ws3.length
                  let d4b := r7.take 4
                  if d4b.length = 4 ∧ d4b.all Char.isDigit then
                    match r7.drop 4 with
                    | [] => finish (r7.drop 4)
                    | c :: _ => if isWordChar c then none else finish (r7.drop 4)
                  else none
                else none
              else none
          else none
        | [] => none
      else none
    else none

/-- The lazy `.*?` between the role keyword and the date of `role_pattern`:
grow the gap one character at a time until group 2 matches at a word
boundary. Returns the gap, the date text, and the rest. -/
def rpLazy (prev : Char) : List Char → Option (List Char × List Char × List Char)
  | [] => none
  | c :: cs =>
    match (if isWordChar prev then none else rpDateAt (c :: cs)) with
    | some (t, r) => some ([], t, r)
    | none =>
      match rpLazy c cs with
      | some (gap, t, r) => some (c :: gap, t, r)
      | none => none

/-- Try the full `role_pattern` at one position (leading word boundary
checked by the caller): a role keyword with word boundaries, a lazy gap, then
the date part. Returns the matched text and the rest. -/
def rpMatchAt (cs : List Char) : Option (List Char × List Char) :=
  match ROLE_HINTS.findSome? (fun h =>
      if ciPrefixOf h.toList cs then
        match cs.drop h.length with
        | [] => none
        | c :: _ => if isWordChar c then none else some h.length
      else none) with
  | none => none
  | some hlen =>
    match cs.drop hlen with
    | [] => none
    | c :: rest =>
      match rpLazy c rest with
      | some (gap, t, r) =>
        some (cs.take hlen ++ c :: gap ++ t, r)
      | none => none

/-- Leftmost `role_pattern` match with the text before it; also returns the
last matched character (for the continuation word boundary). -/
def rpScan (prev : Option Char) : List Char → Option (List Char × List Char × List Char × Char)
  | [] => none
  | c :: cs =>
    let bOk : Bool :=
      match prev with
      | none => true
      | some p => !isWordChar p
    match (if bOk then rpMatchAt (c :: cs) else none) with
    | some (t, r) => some ([], t, r, t.getLastD ' ')
    | none =>
      match rpScan (some c) cs with
      | some (pre, t, r, lc) => some (c :: pre, t, r, lc)
      | none => none

/-- All `role_pattern` matches (fuelled; every match consumes at least one
character): the list of (text before, match text) pairs and the trailing
text. -/
def rpFindAll : Nat → Option Char → List Char → List (List Char × List Char) × List Char
  | 0, _, cs => ([], cs)
  | n + 1, prev, cs =>
    match rpScan prev cs with
    | some (pre, t, r, lc) =>
      let (ms, trail) := rpFindAll n (some lc) r
      ((pre, t) :: ms, trail)
    | none => ([], cs)

/-- `_preprocess_experience_lines` of `parse.py` (the second, effective
definition) applied to one line: lines over 100 characters with two or more
`role_pattern` matches are split into prefix / role-header / remainder
pieces. -/
def preprocessLine (line : String) : List String :=
  if pyLen line > 100 then
    let (ms, trail) := rpFindAll line.toList.length none line.toList
    if ms.length ≥ 2 then
      (ms.flatMap fun pm =>
        (if pyStrip (String.mk pm.1) ≠ "" then [pyStrip (String.mk pm.1)] else [])
          ++ [pyStrip (String.mk pm.2)])
        ++ (if pyStrip (String.mk trail) ≠ "" then [pyStrip (String.mk trail)] else [])
    else [line]
  else [line]

/-- `_preprocess_experience_lines` of `parse.py` over a line list. -/
def preprocessExperienceLines (lines : List String) : List String :=
  lines.flatMap preprocessLine

/-- The `flush` step of `_split_experience_roles`: finalize bullets and keep
the role if it has a title, a company or bullets. -/
def flushRole (roles : List Role) (cur : Role) : List Role :=
  let cur2 := { cur with bullets := cur.bullets.filter (· ≠ "") }
  if cur2.role ≠ "" ∨ cur2.company ≠ "" ∨ cur2.bullets ≠ [] then roles ++ [cur2]
  else roles

/-- Build a new role record from a header line of `_split_experience_roles`:
dates from the embedded range (if any), title stripped of the date
substring. -/
def newRoleFromHeader (ln : String) : Role :=
  match findDateRange ln with
  | some (s, e) =>
    { company := "", role := pyStrip (stripDateRange ln), location := none,
      start := s, end_ := some (if pyLower e ≠ "present" then e else "Present"),
      bullets := [] }
  | none =>
    { company := "", role := pyStrip ln, location := none,
      start := "", end_ := none, bullets := [] }

/-- The loop of `_split_experience_roles` (fuelled; every iteration consumes
at least one line). -/
def splitRolesGo : Nat → List String → Option Role → List Role → List Role
  | _, [], cur, roles =>
    (match cur with
     | some c => flushRole roles c
     | none => roles)
  | 0, _ :: _, cur, roles =>
    (match cur with
     | some c => flushRole roles c
     | none => roles)
  | n + 1, l0 :: rest, cur, roles =>
    let ln := pyRstrip l0
    if likelyRoleHeader ln then
      let roles1 :=
        match cur with
        | some c => flushRole roles c
        | none => roles
      let newCur := newRoleFromHeader ln
      let blanks := rest.takeWhile (fun l => pyStrip l = "")
      match rest.drop blanks.length with
      | nxtRaw :: rest2 =>
        let nxt := pyStrip nxtRaw
        if ¬ isBullet nxt ∧ ¬ likelyRoleHeader nxt then
          let loc := extractLocation nxt
          let company :=
            match loc with
            | some l =>
              if pyContains nxt l then
                pyStripSet [' ', ',', '•', '-', '–', '—']
                  (String.mk (replaceAllFuel l.toList [] nxt.toList.length nxt.toList))
              else nxt
            | none => nxt
          splitRolesGo n rest2
            (some { newCur with location := loc, company := company }) roles1
        else
          splitRolesGo n rest (some newCur) roles1
      | [] => splitRolesGo n [] (some newCur) roles1
    else
      if isBullet ln ∨ pyStrip ln ≠ "" then
        let cur1 :=
          match cur with
          | some c => c
          | none => ({} : Role)
        let rows := rest.takeWhile
          (fun l => pyStrip (pyRstrip l) ≠ "" ∧ ¬ likelyRoleHeader (pyRstrip l))
        let blk := ln :: rows.map pyRstrip
        let cur2 := { cur1 with bullets := cur1.bullets ++ collectBullets blk }
        splitRolesGo n (rest.drop rows.length) (some cur2) roles
      else
        splitRolesGo n rest cur roles

/-- `_split_experience_roles` of `parse.py`: preprocess concatenated lines,
run the header/company/bullets state machine, drop bulletless roles. -/
def splitExperienceRoles (lines : List String) : List Role :=
  let lines2 := preprocessExperienceLines lines
  let roles := splitRolesGo lines2.length lines2 none []
  roles.filter (fun r => r.bullets ≠ [])

/-- The experience field of `parse_resume_text` of `parse.py`: normalize,
split into lines, segment into sections, take the experience section (or all
lines when it is absent or empty), preprocess, and split into roles. -/
def resumeExperienceOf (content : String) : List Role :=
  let txt := normalizeText content
  let lines := (splitLines txt).map pyRstrip
  let sections := splitSections lines
  let expLines :=
    match getSec sections "experience" with
    | some l => if l ≠ [] then l else lines
    | none => lines
  splitExperienceRoles (preprocessExperienceLines expLines)

/-! ## Skill-line normalization and JD parsing (`utils.py`, `parse.py`) -/

/-- `dedupe_keep_order` of `utils.py`. -/
def dedupeKeepOrder (items : List String) : List String :=
  items.foldl (fun out x => if x ∉ out then out ++ [x] else out) []

/-- `_SKILL_ALIASES` of `utils.py`. -/
def SKILL_ALIASES : List (String × String) :=
  [("js", "JavaScript"), ("javascript", "JavaScript"), ("node", "Node.js"),
   ("nodejs", "Node.js"), ("node.js", "Node.js"), ("ts", "TypeScript"),
   ("typescript", "TypeScript"), ("reactjs", "React"), ("react.js", "React"),
   ("nextjs", "Next.js"), ("next.js", "Next.js"), ("postgres", "PostgreSQL"),
   ("postgresql", "PostgreSQL"), ("aws", "AWS"),
   ("amazon web services", "AWS"), ("gcp", "GCP"), ("google cloud", "GCP"),
   ("ms sql", "SQL Server"), ("mssql", "SQL Server"), ("py", "Python"),
   ("fast api", "FastAPI"), ("fastapi", "FastAPI")]

/-- The `keep` set of `_canon_skill`: known casings kept as-is. -/
def keepCased : List String :=
  ["Node.js", "Next.js", "React", "TypeScript", "JavaScript", "PostgreSQL",
   "AWS", "GCP", "FastAPI", "SQL", "Python", "Java"]

/-- Single-character markers of `_LEADING_BULLET`. -/
def extBulletChars : List Char :=
  ['-', '•', '‣', '*', '+', '→', '⇒', '►', '▪', '▫', '◦', '‣', '⁃']

/-- Roman-numeral characters of `_LEADING_BULLET`. -/
def romanChars : List Char := ['I', 'V', 'X', 'i', 'v', 'x']

/-- Match `_LEADING_BULLET`
(`^\s*([-•...]|\d+[.)]|[a-zA-Z][.)]|[IVXivx]+[.)])\s+`); on success return
the remainder after the trailing whitespace. Alternatives are tried in the
regex order, each requiring the trailing `\s+`. -/
def leadingBulletSplit (cs : List Char) : Option (List Char) :=
  let ws := cs.dropWhile pyIsSpace
  let alt1 : Option (List Char) :=
    match ws with
    | c :: rest => if extBulletChars.contains c then some rest else none
    | [] => none
  let alt2 : Option (List Char) :=
    let ds := ws.takeWhile Char.isDigit
    if ds.length ≥ 1 then
      match ws.drop ds.length with
      | p :: rest => if p = '.' ∨ p = ')' then some rest else none
      | [] => none
    else none
  let alt3 : Option (List Char) :=
    match ws with
    | a :: p :: rest =>
      if a.isAlpha ∧ (p = '.' ∨ p = ')') then some rest else none
    | _ => none
  let alt4 : Option (List Char) :=
    let rs := ws.takeWhile (fun c => romanChars.contains c)
    if rs.length ≥ 1 then
      match ws.drop rs.length with
      | p :: rest => if p = '.' ∨ p = ')' then some rest else none
      | [] => none
    else none
  [alt1, alt2, alt3, alt4].findSome? fun a =>
    match a with
    | some rest =>
      if rest.takeWhile pyIsSpace ≠ [] then some (rest.dropWhile pyIsSpace)
      else none
    | none => none

/-- `_LEADING_BULLET.sub("", t)`: the pattern is anchored, so at most the
leading match is removed. -/
def leadingBulletSub (s : String) : String :=
  match leadingBulletSplit s.toList with
  | some rest => String.mk rest
  | none => s

/-- Python `str.capitalize()`: first character upper, rest lower. -/
def pyCapitalize (w : String) : String :=
  match w.toList with
  | [] => ""
  | c :: rest => String.mk (c.toUpper :: rest.map Char.toLower)

/-- `_canon_skill` of `utils.py`: strip list markers, collapse whitespace,
resolve aliases, keep known casings, else capitalize each word. -/
def canonSkill (s : String) : String :=
  let t := pyStrip s
  let t2 := leadingBulletSub t
  let t3 := String.mk (collapseRuns pyIsSpace ' ' t2.toList)
  let low := pyLower t3
  match SKILL_ALIASES.lookup low with
  | some canon => canon
  | none =>
    match keepCased.find? (fun k => low = pyLower k) with
    | some k => k
    | none => String.intercalate " " ((pySplitWs t3).map pyCapitalize)

/-- The section-header filter set of `normalize_skill_lines`. -/
def skillSectionHeaders : List String :=
  ["programming languages", "frameworks", "libraries", "tools",
   "technologies", "databases", "cloud", "devops", "methodologies", "other",
   "additional"]

/-- The part of a string after its first colon (Python
`s.split(":", 1)[-1]`). -/
def afterFirstColon (s : String) : String :=
  if s.toList.contains ':' then String.mk ((s.toList.dropWhile (· ≠ ':')).drop 1)
  else s

/-- The guarded append `if c and c not in out: out.append(c)` of
`normalize_skill_lines`. -/
def guardAppend (out : List String) (c : String) : List String :=
  if c ≠ "" ∧ c ∉ out then out ++ [c] else out

/-- The header-with-attached-skill detection inside the
`normalize_skill_lines` loop (for parts like a section header followed by a
colon and a skill). -/
def headerWithSkillOf (p : String) : Option String :=
  let pClean := pyLower (pyRstripSet [':'] (pyStrip p))
  if (skillSectionHeaders.any fun h => pyContains pClean h)
      ∧ pyContains p ":" then
    let after := pyStrip (afterFirstColon p)
    if after ≠ "" ∧ ¬ skillSectionHeaders.contains (pyLower after) then
      some after
    else none
  else none

/-- The pure-section-header skip condition inside the
`normalize_skill_lines` loop. -/
def skillSkipCond (p : String) : Prop :=
  let pClean := pyLower (pyRstripSet [':'] (pyStrip p))
  skillSectionHeaders.contains pClean
    ∨ (skillSectionHeaders.any fun h => pyContains pClean h)
    ∨ ((pySplitWs p).length ≤ 2 ∧ pyEndsWith pClean "s")

instance (p : String) : Decidable (skillSkipCond p) := by
  unfold skillSkipCond
  infer_instance

/-- Processing of one part inside the `normalize_skill_lines` loop. -/
def skillPartStep (out : List String) (p : String) : List String :=
  if p = "" then out
  else
    match headerWithSkillOf p with
    | some hs => guardAppend out (canonSkill hs)
    | none =>
      if skillSkipCond p then out
      else guardAppend out (canonSkill p)

/-- The separator split inside the `normalize_skill_lines` loop: parts of a
line split at `;`, `,`, `/` or the middle dot, stripped and non-empty, the
whole stripped line when there are none. -/
def skillLineParts (ln : String) : List String :=
  let parts0 := ((splitOnPred
      (fun c => c = ';' || c = ',' || c = '/' || c = '·') ln).map
      pyStrip).filter (· ≠ "")
  if parts0 = [] then [pyStrip ln] else parts0

/-- Processing of one line inside the `normalize_skill_lines` loop. -/
def skillLineStep (out : List String) (ln : String) : List String :=
  if skillSectionHeaders.contains (pyRstripSet [':'] (pyLower (pyStrip ln))) then
    out
  else (skillLineParts ln).foldl skillPartStep out

/-- `normalize_skill_lines` of `utils.py`: split skill lines on separators,
drop section headers, canonicalize each token, deduplicate. -/
def normalizeSkillLines (lines : List String) : List String :=
  lines.foldl skillLineStep []

/-- Case-insensitive literal-alternation word search with `\b` on both sides
(the two `tech_patterns` of `parse_jd_text`): all non-overlapping matches in
order, fuelled by the character count. -/
def litScanAll (words : List String) : Nat → Option Char → List Char → List (List Char)
  | 0, _, _ => []
  | n + 1, prev, cs =>
    match cs with
    | [] => []
    | c :: rest =>
      let prevWord : Bool :=
        match prev with
        | none => false
        | some p => isWordChar p
      let attempt : Option (List Char × List Char × Char) :=
        if prevWord ≠ isWordChar c then
          words.findSome? fun w =>
            if w ≠ "" ∧ ciPrefixOf w.toList (c :: rest) then
              let matched := (c :: rest).take w.toList.length
              let after := (c :: rest).drop w.toList.length
              let lastc := matched.getLastD ' '
              let nextWord : Bool :=
                match after with
                | [] => false
                | a :: _ => isWordChar a
              if isWordChar lastc ≠ nextWord then some (matched, after, lastc)
              else none
            else none
        else none
      match attempt with
      | some (t, after, lastc) => t :: litScanAll words n (some lastc) after
      | none => litScanAll words n (some c) rest

/-- First tech-pattern alternation of the `parse_jd_text` fallback. -/
def techPatternA : List String :=
  ["Python", "JavaScript", "TypeScript", "Java", "C++", "SQL", "React",
   "Node.js", "Flask", "FastAPI", "Docker", "Kubernetes", "AWS", "Azure",
   "GCP"]

/-- Second tech-pattern alternation of the `parse_jd_text` fallback. -/
def techPatternB : List String :=
  ["Git", "Jenkins", "MongoDB", "PostgreSQL", "Linux", "HTML", "CSS",
   "Angular", "Vue.js", "Spring", "Django", "TensorFlow", "PyTorch"]

/-- The tech-mention fallback of `parse_jd_text`: scan the joined text with
both patterns, lower-case, deduplicate. The Python code collects the matches
into a set, whose iteration order is unspecified; the model fixes first-seen
order. -/
def techExtract (lines : List String) : List String :=
  let fullText := String.intercalate " " lines
  let m1 := litScanAll techPatternA fullText.toList.length none fullText.toList
  let m2 := litScanAll techPatternB fullText.toList.length none fullText.toList
  dedupeKeepOrder ((m1 ++ m2).map fun t => pyLower (String.mk t))

/-- The skills-into-required merge loop of `parse_jd_text`. -/
def mergeSkillsIntoRequired (required : List String) (skills : List String) :
    List String :=
  skills.foldl (fun req s => if s ∉ req then req ++ [s] else req) required

/-- `parse_jd_text` of `parse.py`: segment the JD text, collect
responsibility bullets, normalize the requirement/preferred/skills buckets
(with the qualifications and full-text tech fallbacks), and merge skills into
required. -/
def parseJdText (content : String) : Jd :=
  let txt := normalizeText content
  let lines := (splitLines txt).map pyRstrip
  let sections := splitSections lines
  let title := ((lines.find? fun l => pyStrip l ≠ "").map pyStrip).getD "Job Title"
  let resp0 := collectBullets ((getSec sections "responsibilities").getD [])
  let reqRaw0 := (getSec sections "requirements").getD []
  let prefRaw := (getSec sections "preferred").getD []
  let skillsRaw := (getSec sections "skills").getD []
  let quals := (getSec sections "qualifications").getD []
  let reqRaw1 := if quals ≠ [] ∧ reqRaw0 = [] then quals else reqRaw0
  let keyResp := (getSec sections "key responsibilities").getD []
  let resp := if keyResp ≠ [] then resp0 ++ collectBullets keyResp else resp0
  let reqRaw := if reqRaw1 = [] ∧ skillsRaw = [] ∧ prefRaw = [] then
      reqRaw1 ++ techExtract lines
    else reqRaw1
  let required0 := normalizeSkillLines reqRaw
  let preferred := normalizeSkillLines prefRaw
  let skills := normalizeSkillLines skillsRaw
  let required := mergeSkillsIntoRequired required0 skills
  { title := some title, company := none, responsibilities := resp,
    required := required,
    preferred := if preferred ≠ [] then some preferred else none,
    skills := skills }

/-! ## Term utilities of `analyze.py` / `utils.py` -/

/-- `ACTION_VERBS` of `analyze.py` (a Python set literal; the model keeps the
source order, and only membership and cardinality are ever used). -/
def ACTION_VERBS : List String :=
  ["build", "built", "design", "designed", "implement", "implemented",
   "optimize", "optimized", "deploy", "deployed", "automate", "automated",
   "lead", "led", "own", "owned", "scale", "scaled", "migrate", "migrated",
   "improve", "improved", "reduce", "reduced", "increase", "increased",
   "deliver", "delivered", "architect", "architected", "monitor",
   "monitored", "debug", "debugged"]

/-- The token character class of `WORD` (`[A-Za-z][A-Za-z0-9+.#-]{1,}`),
after the first letter. -/
def wordClassChar (c : Char) : Bool :=
  c.isAlpha || c.isDigit || c = '+' || c = '.' || c = '#' || c = '-'

/-- All `WORD` matches (fuelled scan; every step consumes a character). -/
def tokenizeChars : Nat → List Char → List (List Char)
  | 0, _ => []
  | _ + 1, [] => []
  | n + 1, c :: cs =>
    if c.isAlpha then
      let run := cs.takeWhile wordClassChar
      if run.length ≥ 1 then (c :: run) :: tokenizeChars n (cs.drop run.length)
      else tokenizeChars n cs
    else tokenizeChars n cs

/-- `tokenize` of `utils.py`. -/
def tokenize (s : String) : List String :=
  (tokenizeChars s.toList.length s.toList).map String.mk

/-- `normalize_term` of `utils.py`: lower, keep word characters and
`+ . # -`, collapse whitespace, strip. -/
def normalizeTerm (t : String) : String :=
  let t1 := pyLower (pyStrip t)
  let t2 := mapChars
    (fun c => !(isWordChar c || c = '+' || c = '.' || c = '#' || c = '-')) ' '
    t1.toList
  String.mk (stripWhile pyIsSpace (collapseRuns pyIsSpace ' ' t2))

/-- `explode_terms` of `utils.py`: split on commas and semicolons, keep
phrases, normalize and deduplicate dropping empties. -/
def explodeTerms (lines : List String) : List String :=
  let out := lines.flatMap fun ln =>
    let parts := (((splitOnPred (fun c => c = ';' || c = ',') ln).map
      pyStrip).filter (· ≠ ""))
    if parts ≠ [] then parts else [pyStrip ln]
  out.foldl
    (fun acc p =>
      let n := normalizeTerm p
      if n ≠ "" ∧ n ∉ acc then acc ++ [n] else acc) []

/-- `fuzzy_contains` of `utils.py` with an explicit threshold and the
external scorer `sim`. -/
def fuzzyContains (sim : String → String → ℚ) (needle : String)
    (haystack : List String) (threshold : ℚ) : Bool :=
  haystack.any fun h => threshold ≤ sim needle h

/-- One prefix substitution of `strip_list_artifacts`: optional whitespace, a
marker accepted by `marker`, optional whitespace; unchanged when there is no
match. -/
def subListPrefix (marker : List Char → Option (List Char)) (cs : List Char) :
    List Char :=
  let ws := cs.dropWhile pyIsSpace
  match marker ws with
  | some rest => rest.dropWhile pyIsSpace
  | none => cs

/-- `strip_list_artifacts` of `utils.py`: strip bullet, number, letter and
roman-numeral prefixes (four anchored substitutions in sequence), then strip,
keeping non-empty results. -/
def stripListArtifacts (xs : List String) : List String :=
  xs.foldl
    (fun acc s =>
      let s1 := subListPrefix
        (fun ws =>
          match ws with
          | c :: rest => if extBulletChars.contains c then some rest else none
          | [] => none) s.toList
      let s2 := subListPrefix
        (fun ws =>
          let ds := ws.takeWhile Char.isDigit
          if ds.length ≥ 1 then
            match ws.drop ds.length with
            | p :: rest => if p = '.' ∨ p = ')' then some rest else none
            | [] => none
          else none) s1
      let s3 := subListPrefix
        (fun ws =>
          match ws with
          | a :: p :: rest =>
            if a.isAlpha ∧ (p = '.' ∨ p = ')') then some rest else none
          | _ => none) s2
      let s4 := subListPrefix
        (fun ws =>
          let rs := ws.takeWhile (fun c => romanChars.contains c)
          if rs.length ≥ 1 then
            match ws.drop rs.length with
            | p :: rest => if p = '.' ∨ p = ')' then some rest else none
            | [] => none
          else none) s3
      let r := pyStrip (String.mk s4)
      if r ≠ "" then acc ++ [r] else acc) []

/-! ## Scoring components of `analyze.py` -/

/-- The default weights of `config.py` (`WEIGHT_CORE` etc.). -/
def weightCore : ℕ := 40
/-- Default preferred-bucket weight. -/
def weightPreferred : ℕ := 15
/-- Default verb-alignment weight. -/
def weightVerbs : ℕ := 20
/-- Default domain-bucket weight. -/
def weightDomain : ℕ := 10
/-- Default recency weight. -/
def weightRecency : ℕ := 10
/-- Default hygiene weight. -/
def weightHygiene : ℕ := 5
/-- The default `FUZZY_THRESHOLD` of `config.py`. -/
def FUZZY_THRESHOLD : ℚ := 85
/-- The default `ENHANCED_JD_NORMALIZATION` flag of `config.py`. -/
def ENHANCED_JD_NORMALIZATION : Bool := true

/-- `verb_alignment` of `analyze.py`: fraction of JD-implied action verbs
fuzzily present in the résumé bullets, falling back to the whole generic verb
set. -/
def verbAlignment (sim : String → String → ℚ) (jdVerbsSrc : List String)
    (resumeBullets : List String) : ℚ :=
  let jdVerbs0 := (explodeTerms jdVerbsSrc).filter fun w => ACTION_VERBS.contains w
  let jdVerbs := if jdVerbs0 = [] then ACTION_VERBS else jdVerbs0
  let hits := (jdVerbs.filter fun v =>
    fuzzyContains sim v resumeBullets FUZZY_THRESHOLD).length
  (hits : ℚ) / max 1 (jdVerbs.length : ℚ)

/-- `hygiene` of `analyze.py`: 0.2 with no bullets, else the blend of the
good-length ratio and the has-numbers ratio, clamped into [0, 1]. -/
def hygieneScore (resume : Resume) : ℚ :=
  let bullets := resume.experience.flatMap Role.bullets
  if bullets = [] then 1/5
  else
    let goodLen := (bullets.filter fun b =>
      8 ≤ (pySplitWs b).length ∧ (pySplitWs b).length ≤ 30).length
    let hasNums := (bullets.filter fun b => b.toList.any Char.isDigit).length
    let ratio : ℚ := (1/2) * ((goodLen : ℚ) / bullets.length)
      + (1/2) * ((hasNums : ℚ) / bullets.length)
    min 1 (max 0 ratio)

/-- `_calculate_role_duration` of `analyze.py`: role duration in months, with
12 as the default for missing or unparseable dates. -/
def calculateRoleDuration (today : PyDate) (r : Role) : ℤ :=
  if r.start = "" then 12
  else
    match parseMonthYear today r.start with
    | none => 12
    | some sd =>
      let ed : Option PyDate :=
        match r.end_ with
        | some e =>
          if pyLower (pyStrip e) = "present" then some today
          else if e ≠ "" then parseMonthYear today e
          else none
        | none => none
      match ed with
      | none => 12
      | some ed =>
        max 1 (((ed.year : ℤ) - sd.year) * 12 + ((ed.month : ℤ) - sd.month))

/-- The duration multiplier of `_enhanced_recency_score`: up to 20 percent
boost for long roles. -/
noncomputable def durationMultiplier (today : PyDate) (r : Role) : ℝ :=
  min 1.2 (1 + (calculateRoleDuration today r : ℝ) / 120)

/-- The searchable pool of one role in `_enhanced_recency_score`: normalized
bullets, role title and company. -/
def rolePool (r : Role) : List String :=
  r.bullets.map normalizeTerm
    ++ (if r.role ≠ "" then [normalizeTerm r.role] else [])
    ++ (if r.company ≠ "" then [normalizeTerm r.company] else [])

/-- The searchable pool of one project in `_enhanced_recency_score`. -/
def projectPool (p : Project) : List String :=
  (if p.name ≠ "" then [normalizeTerm p.name] else [])
    ++ p.bullets.map normalizeTerm

/-- `_enhanced_recency_score` of `analyze.py` (the score component; the
details list it also returns is not consumed by `analyze`): each role whose
pool fuzzily contains a core term contributes its duration-boosted recency
weight once, each matching project contributes the flat 0.7, and the result
is the average clamped to 1, or 0 when nothing matches. -/
noncomputable def enhancedRecencyScore (sim : String → String → ℚ)
    (today : PyDate) (resume : Resume) (coreTerms : List String) : ℝ :=
  let roles := resume.experience
  let projects := resume.projects.getD []
  if coreTerms = [] ∨ (roles = [] ∧ projects = []) then 0
  else
    let roleWeights : List ℝ := roles.filterMap fun r =>
      if coreTerms.any (fun term => fuzzyContainsCanonical sim term (rolePool r))
      then some (roleRecencyWeight today r * durationMultiplier today r)
      else none
    let projWeights : List ℝ := projects.filterMap fun p =>
      if coreTerms.any (fun term => fuzzyContainsCanonical sim term (projectPool p))
      then some 0.7
      else none
    let allW := roleWeights ++ projWeights
    if allW = [] then 0 else min 1 (allW.sum / allW.length)

/-- The `\b[A-Za-z]{3,}\b` word scan of `_compute_domain_bonus` (fuelled). -/
def titleWordsAux : Nat → Option Char → List Char → List (List Char)
  | 0, _, _ => []
  | _ + 1, _, [] => []
  | n + 1, prev, c :: cs =>
    let prevOk : Bool :=
      match prev with
      | none => true
      | some p => !isWordChar p
    if c.isAlpha && prevOk then
      let run := c :: cs.takeWhile Char.isAlpha
      let rest := cs.drop (run.length - 1)
      let nextOk : Bool :=
        match rest with
        | [] => true
        | d :: _ => !isWordChar d
      if run.length ≥ 3 && nextOk then
        run :: titleWordsAux n (some (run.getLastD c)) rest
      else titleWordsAux n (some (run.getLastD c)) rest
    else titleWordsAux n (some c) cs

/-- The stop words of `_compute_domain_bonus`. -/
def domainStopWords : List String :=
  ["the", "and", "for", "with", "senior", "junior", "lead", "principal",
   "staff"]

/-- `_compute_domain_bonus` of `analyze.py`: 0-15 points for overlap between
JD-title keywords and résumé role titles. -/
def computeDomainBonus (resume : Resume) (jd : Jd) : ℤ :=
  let jdTitle := jd.title.getD ""
  if jdTitle = "" then 0
  else
    let words := (titleWordsAux (pyLower jdTitle).toList.length none
      (pyLower jdTitle).toList).map String.mk
    let keywords := words.filter fun w => w ∉ domainStopWords
    if keywords = [] then 0
    else
      let resumeRoles := resume.experience.filterMap fun e =>
        if e.role ≠ "" then some (pyLower e.role) else none
      if resumeRoles = [] then 0
      else
        let nMatches := (keywords.filter fun k =>
          resumeRoles.any fun r => pyContains r k).length
        if nMatches = 0 then 0
        else min 15 ⌊(nMatches : ℚ) / (keywords.length : ℚ) * 15⌋

/-! ## Enhanced JD normalization (`analyze.py`) -/

/-- The `known_technologies` casing dictionary of
`_extract_skills_from_text`, in source order. -/
def knownTechnologies : List (String × String) :=
  [("python", "Python"), ("javascript", "JavaScript"),
   ("typescript", "TypeScript"), ("java", "Java"), ("c++", "C++"),
   ("c#", "C#"), ("ruby", "Ruby"), ("php", "PHP"), ("go", "Go"),
   ("rust", "Rust"), ("swift", "Swift"), ("kotlin", "Kotlin"),
   ("scala", "Scala"), ("r", "R"),
   ("react", "React"), ("angular", "Angular"), ("vue", "Vue.js"),
   ("svelte", "Svelte"), ("nextjs", "Next.js"), ("next.js", "Next.js"),
   ("nuxt", "Nuxt.js"),
   ("nodejs", "Node.js"), ("node.js", "Node.js"), ("express", "Express.js"),
   ("fastapi", "FastAPI"), ("django", "Django"), ("flask", "Flask"),
   ("rails", "Ruby on Rails"), ("spring", "Spring"), ("laravel", "Laravel"),
   ("sql", "SQL"), ("postgresql", "PostgreSQL"), ("postgres", "PostgreSQL"),
   ("mysql", "MySQL"), ("mongodb", "MongoDB"), ("redis", "Redis"),
   ("elasticsearch", "Elasticsearch"), ("sqlite", "SQLite"),
   ("cassandra", "Cassandra"),
   ("docker", "Docker"), ("kubernetes", "Kubernetes"), ("k8s", "Kubernetes"),
   ("terraform", "Terraform"), ("jenkins", "Jenkins"), ("github", "GitHub"),
   ("gitlab", "GitLab"), ("aws", "AWS"), ("azure", "Azure"), ("gcp", "GCP"),
   ("google cloud", "GCP"), ("heroku", "Heroku"), ("vercel", "Vercel"),
   ("netlify", "Netlify"),
   ("git", "Git"), ("linux", "Linux"), ("bash", "Bash"),
   ("powershell", "PowerShell"), ("api", "API"), ("rest", "REST"),
   ("graphql", "GraphQL"), ("json", "JSON"), ("xml", "XML"),
   ("html", "HTML"), ("css", "CSS"), ("sass", "Sass"), ("scss", "SCSS"),
   ("tailwind", "Tailwind CSS"), ("bootstrap", "Bootstrap"),
   ("agile", "Agile"), ("scrum", "Scrum"), ("devops", "DevOps"),
   ("ci/cd", "CI/CD"), ("testing", "Testing"), ("tdd", "TDD"),
   ("junit", "JUnit"), ("pytest", "pytest"),
   ("webpack", "Webpack"), ("vite", "Vite"), ("babel", "Babel"),
   ("npm", "npm"), ("yarn", "Yarn")]

/-- Connector words excluded from skill candidates in
`_extract_skills_from_text`. -/
def connectorStops : List String :=
  ["and", "or", "with", "using", "including", "the", "a", "an", "to", "of",
   "for", "in", "on"]

/-- Set-like insertion (the Python `set.add`, with first-seen order fixed by
the model). -/
def setAdd (acc : List String) (x : String) : List String :=
  if x ∈ acc then acc else acc ++ [x]

/-- Backtracking tail of the pattern-1 capture
`([A-Za-z][A-Za-z0-9+#./\s-]*(?:\.[A-Za-z]+)?)\b`: greedy star of length `k`
downward, greedy optional dot-group, then the word boundary. -/
def p1Attempt (c0 : Char) (run : List Char) (rest : List Char) (k : Nat) :
    Option (List Char × List Char) :=
  let star := run.take k
  let after := rest.drop k
  let withOpt : Option (List Char × List Char) :=
    match after with
    | '.' :: a2 =>
      let ls := a2.takeWhile Char.isAlpha
      if ls.length ≥ 1 then
        let after2 := a2.drop ls.length
        let nextWord : Bool :=
          match after2 with
          | [] => false
          | d :: _ => isWordChar d
        if isWordChar (ls.getLastD '.') ≠ nextWord then
          some (c0 :: star ++ '.' :: ls, after2)
        else none
      else none
    | _ => none
  match withOpt with
  | some r => some r
  | none =>
    let capture := c0 :: star
    let nextWord : Bool :=
      match after with
      | [] => false
      | d :: _ => isWordChar d
    if isWordChar (capture.getLastD c0) ≠ nextWord then some (capture, after)
    else none

/-- Descend through the star lengths of `p1Attempt`, greedy first. -/
def p1TryStar (c0 : Char) (run : List Char) (rest : List Char) :
    Nat → Option (List Char × List Char)
  | 0 => p1Attempt c0 run rest 0
  | k + 1 =>
    match p1Attempt c0 run rest (k + 1) with
    | some r => some r
    | none => p1TryStar c0 run rest k

/-- The capture part of skill pattern 1. -/
def p1Capture (cs : List Char) : Option (List Char × List Char) :=
  match cs with
  | c0 :: rest =>
    if c0.isAlpha then
      let run := rest.takeWhile fun c =>
        c.isAlpha || c.isDigit || c = '+' || c = '#' || c = '.' || c = '/' ||
        c = '-' || pyIsSpace c
      p1TryStar c0 run rest run.length
    else none
  | [] => none

/-- The trigger keywords of skill pattern 1. -/
def p1Keywords : List String :=
  ["experience", "proficiency", "knowledge", "skilled", "expertise",
   "familiar"]

/-- Skill pattern 1 at one position (leading boundary checked by caller):
`\b(?:experience|...)\s+(?:with|in)\s+(capture)\b`, case-insensitive.
Returns the group-1 capture and the rest after the match. -/
def p1MatchAt (cs : List Char) : Option (List Char × List Char) :=
  p1Keywords.findSome? fun kw =>
    if ciPrefixOf kw.toList cs then
      let r1 := cs.drop kw.length
      let ws1 := r1.takeWhile pyIsSpace
      if ws1.length ≥ 1 then
        let r2 := r1.drop ws1.length
        ["with", "in"].findSome? fun prep =>
          if ciPrefixOf prep.toList r2 then
            let r3 := r2.drop prep.length
            let ws2 := r3.takeWhile pyIsSpace
            if ws2.length ≥ 1 then p1Capture (r3.drop ws2.length)
            else none
          else none
      else none
    else none

/-- Backtracking tail of the pattern-2 capture
`([A-Za-z][A-Za-z0-9+#./,&\s-]+)\b` (star at least one, no optional
group). -/
def p2TryStar (c0 : Char) (run : List Char) (rest : List Char) :
    Nat → Option (List Char × List Char)
  | 0 => none
  | k + 1 =>
    let star := run.take (k + 1)
    let after := rest.drop (k + 1)
    let capture := c0 :: star
    let nextWord : Bool :=
      match after with
      | [] => false
      | d :: _ => isWordChar d
    if isWordChar (capture.getLastD c0) ≠ nextWord then some (capture, after)
    else p2TryStar c0 run rest k

/-- Skill pattern 2 at one position:
`\b(?:using|leveraging|utilizing)\s+(capture)\b`, case-insensitive. -/
def p2MatchAt (cs : List Char) : Option (List Char × List Char) :=
  (["using", "leveraging", "utilizing"] : List String).findSome? fun kw =>
    if ciPrefixOf kw.toList cs then
      let r1 := cs.drop kw.length
      let ws1 := r1.takeWhile pyIsSpace
      if ws1.length ≥ 1 then
        match r1.drop ws1.length with
        | c0 :: rest =>
          if c0.isAlpha then
            let run := rest.takeWhile fun c =>
              c.isAlpha || c.isDigit || c = '+' || c = '#' || c = '.' ||
              c = '/' || c = '-' || c = ',' || c = '&' || pyIsSpace c
            p2TryStar c0 run rest run.length
          else none
        | [] => none
      else none
    else none

/-- A technology token of skill pattern 3 (`[A-Z][A-Za-z+#.]*` under
IGNORECASE, the optional dot-group being subsumed by the star class). -/
def p3Token (cs : List Char) : Option (List Char × List Char) :=
  match cs with
  | c :: rest =>
    if c.isAlpha then
      let run := rest.takeWhile fun d =>
        d.isAlpha || d = '+' || d = '#' || d = '.'
      some (c :: run, rest.drop run.length)
    else none
  | [] => none

/-- One repetition unit of skill pattern 3:
`\s*[,&]\s*(?:and\s+)?token`, with backtracking of the optional `and`. -/
def p3Rep (cs : List Char) : Option (List Char × List Char) :=
  let ws1 := cs.takeWhile pyIsSpace
  match cs.drop ws1.length with
  | c :: rest =>
    if c = ',' ∨ c = '&' then
      let ws2 := rest.takeWhile pyIsSpace
      let r2 := rest.drop ws2.length
      let withAnd : Option (List Char × List Char) :=
        if ciPrefixOf ("and").toList r2 then
          let afterAnd := r2.drop 3
          let ws3 := afterAnd.takeWhile pyIsSpace
          if ws3.length ≥ 1 then
            match p3Token (afterAnd.drop ws3.length) with
            | some (tok, r4) =>
              some (ws1 ++ c :: ws2 ++ r2.take (3 + ws3.length) ++ tok, r4)
            | none => none
          else none
        else none
      match withAnd with
      | some r => some r
      | none =>
        match p3Token r2 with
        | some (tok, r4) => some (ws1 ++ c :: ws2 ++ tok, r4)
        | none => none
    else none
  | [] => none

/-- Greedy repetition list for skill pattern 3: each entry is the repetition
text and the rest after it. -/
def p3RepsList : Nat → List Char → List (List Char × List Char)
  | 0, _ => []
  | n + 1, cs =>
    match p3Rep cs with
    | some (t, r) => (t, r) :: p3RepsList n r
    | none => []

/-- Choose the longest repetition prefix whose end satisfies the trailing
word boundary (backtracking from the greedy maximum). -/
def p3PickReps (reps : List (List Char × List Char)) :
    Option (List Char × List Char) :=
  match reps.reverse.find? (fun tr =>
      let lastc := tr.1.getLastD ' '
      let nextWord : Bool :=
        match tr.2 with
        | [] => false
        | d :: _ => isWordChar d
      isWordChar lastc ≠ nextWord) with
  | some tr =>
    let idx := (reps.reverse.indexOf tr)
    -- text of all repetitions up to and including the chosen one
    let keep := reps.take (reps.length - idx)
    some ((keep.map Prod.fst).flatten, tr.2)
  | none => none

/-- Skill pattern 3 at one position: a token followed by one or more
separator-token repetitions, ending at a word boundary (IGNORECASE). -/
def p3MatchAt (cs : List Char) : Option (List Char × List Char) :=
  match p3Token cs with
  | some (tok, r1) =>
    let reps := p3RepsList r1.length r1
    if reps = [] then none
    else
      match p3PickReps reps with
      | some (repText, rest) => some (tok ++ repText, rest)
      | none => none
  | none => none

/-- Generic finditer loop: scan positions with the previous character for the
leading word boundary, applying `matchAt` (which returns capture and rest);
non-overlapping, fuelled. -/
def scanFindAll (matchAt : List Char → Option (List Char × List Char)) :
    Nat → Option Char → List Char → List String
  | 0, _, _ => []
  | _ + 1, _, [] => []
  | n + 1, prev, c :: rest =>
    let bOk : Bool :=
      match prev with
      | none => true
      | some p => !isWordChar p
    match (if bOk && (isWordChar c || c.isAlpha) then matchAt (c :: rest) else none) with
    | some (cap, after) =>
      String.mk cap :: scanFindAll matchAt n (some (cap.getLastD c)) after
    | none => scanFindAll matchAt n (some c) rest

/-- The words of the literal alternation of skill pattern 4. -/
def p4Words : List String :=
  ["Python", "JavaScript", "TypeScript", "React", "Node.js", "Angular",
   "Vue.js", "Django", "Flask", "PostgreSQL", "MongoDB", "Docker",
   "Kubernetes", "AWS", "Azure", "GCP"]

/-- The split of a pattern capture on `\s*[,&]\s*(?:and\s+)?` (the `re.split`
inside `_extract_skills_from_text`; `and` is case-sensitive there). -/
def candSepAt (cs : List Char) : Option (List Char) :=
  let ws1 := cs.dropWhile pyIsSpace
  match ws1 with
  | c :: rest =>
    if c = ',' ∨ c = '&' then
      let r2 := rest.dropWhile pyIsSpace
      if ("and").toList.isPrefixOf r2 then
        let afterAnd := r2.drop 3
        let ws := afterAnd.takeWhile pyIsSpace
        if ws.length ≥ 1 then some (afterAnd.drop ws.length) else some r2
      else some r2
    else none
  | [] => none

/-- Fuelled splitter on `candSepAt`. -/
def splitCandGo : Nat → List Char → List Char → List (List Char)
  | 0, seg, cs => [seg ++ cs]
  | _ + 1, seg, [] => [seg]
  | n + 1, seg, c :: cs =>
    match candSepAt (c :: cs) with
    | some rest => seg :: splitCandGo n [] rest
    | none => splitCandGo n (seg ++ [c]) cs

/-- Split a candidate string into parts (see `candSepAt`). -/
def splitCandParts (s : String) : List String :=
  (splitCandGo s.toList.length [] s.toList).map String.mk

/-- The word scan `\b[A-Za-z][A-Za-z0-9+#.-]*(?:\.[A-Za-z]+)?\b` of the
direct technology matching in `_extract_skills_from_text`. -/
def wordMatchAt (cs : List Char) : Option (List Char × List Char) :=
  match cs with
  | c0 :: rest =>
    if c0.isAlpha then
      let run := rest.takeWhile fun c =>
        c.isAlpha || c.isDigit || c = '+' || c = '#' || c = '.' || c = '-'
      p1TryStar c0 run rest run.length
    else none
  | [] => none

/-- Process one capture of patterns 1-4: split into comma-parts, keep
non-connector parts, resolve known technologies or keep raw parts longer
than two characters. -/
def addCandidate (acc : List String) (cand : String) : List String :=
  (splitCandParts (pyStrip cand)).foldl
    (fun acc part =>
      let p := pyStrip part
      if pyLen p > 1 ∧ pyLower p ∉ connectorStops then
        match knownTechnologies.lookup (pyLower p) with
        | some canon => setAdd acc canon
        | none => if pyLen p > 2 then setAdd acc p else acc
      else acc) acc

/-- `_extract_skills_from_text` of `analyze.py`: pattern-based extraction
plus the direct known-technology word match; the Python `set` accumulator is
modelled with first-seen insertion order. -/
def extractSkillsFromText (textSources : List String) : List String :=
  textSources.foldl
    (fun acc text =>
      if text = "" then acc
      else
        let cs := text.toList
        let m1 := scanFindAll p1MatchAt cs.length none cs
        let m2 := scanFindAll p2MatchAt cs.length none cs
        let m3 := scanFindAll p3MatchAt cs.length none cs
        let m4 := (litScanAll p4Words cs.length none cs).map String.mk
        let acc1 := (m1 ++ m2 ++ m3 ++ m4).foldl addCandidate acc
        let words := scanFindAll wordMatchAt cs.length none cs
        words.foldl
          (fun acc w =>
            match knownTechnologies.lookup (pyLower w) with
            | some canon => setAdd acc canon
            | none => acc) acc1) []

/-- The single-character bullet class of the `_process_responsibilities`
cleanup (`^\s*[-••*\d+.)]\s*`). -/
def respBulletChars : List Char := ['-', '•', '*', '+', '.', ')']

/-- The bullet cleanup substitution of `_process_responsibilities`. -/
def respBulletSub (s : String) : String :=
  let ws := s.toList.dropWhile pyIsSpace
  match ws with
  | c :: rest =>
    if respBulletChars.contains c ∨ c.isDigit then
      String.mk (rest.dropWhile pyIsSpace)
    else s
  | [] => s

/-- The conjunction separator with lookahead of `_process_responsibilities`
(`\s+(?:and|&)\s+(?=\w+ing|\w+\s+\w+)`). -/
def respSepAt (cs : List Char) : Option (List Char) :=
  let ws1 := cs.takeWhile pyIsSpace
  if ws1.length ≥ 1 then
    let r1 := cs.drop ws1.length
    let afterConj : Option (List Char) :=
      if ("and").toList.isPrefixOf r1 then some (r1.drop 3)
      else if ("&").toList.isPrefixOf r1 then some (r1.drop 1)
      else none
    match afterConj with
    | some r2 =>
      let ws2 := r2.takeWhile pyIsSpace
      if ws2.length ≥ 1 then
        let r3 := r2.drop ws2.length
        let run := r3.takeWhile isWordChar
        let condA : Bool :=
          decide (run.length ≥ 1) && listInfix ("ing").toList (run.drop 1)
        let condB : Bool :=
          decide (run.length ≥ 1) &&
            (let afterRun := r3.drop run.length
             let ws3 := afterRun.takeWhile pyIsSpace
             decide (ws3.length ≥ 1) &&
               (match afterRun.drop ws3.length with
                | d :: _ => isWordChar d
                | [] => false))
        if condA || condB then some r3 else none
      else none
    | none => none
  else none

/-- Fuelled splitter on `respSepAt`. -/
def respSplitGo : Nat → List Char → List Char → List (List Char)
  | 0, seg, cs => [seg ++ cs]
  | _ + 1, seg, [] => [seg]
  | n + 1, seg, c :: cs =>
    match respSepAt (c :: cs) with
    | some rest => seg :: respSplitGo n [] rest
    | none => respSplitGo n (seg ++ [c]) cs

/-- Match `\bwork\s+(?:closely\s+)?with\b` (case-insensitive) at one
position; returns the rest after the match. -/
def subWorkWithAt (cs : List Char) : Option (List Char) :=
  if ciPrefixOf ("work").toList cs then
    let r1 := cs.drop 4
    let ws1 := r1.takeWhile pyIsSpace
    if ws1.length ≥ 1 then
      let r2 := r1.drop ws1.length
      let withClosely : Option (List Char) :=
        if ciPrefixOf ("closely").toList r2 then
          let r3 := r2.drop 7
          let ws2 := r3.takeWhile pyIsSpace
          if ws2.length ≥ 1 then
            let r4 := r3.drop ws2.length
            if ciPrefixOf ("with").toList r4 then
              match r4.drop 4 with
              | [] => some (r4.drop 4)
              | d :: _ => if isWordChar d then none else some (r4.drop 4)
            else none
          else none
        else none
      match withClosely with
      | some r => some r
      | none =>
        if ciPrefixOf ("with").toList r2 then
          match r2.drop 4 with
          | [] => some (r2.drop 4)
          | d :: _ => if isWordChar d then none else some (r2.drop 4)
        else none
    else none
  else none

/-- Match a fixed case-insensitive word sequence (words separated by `\s+`,
word boundary at the end) at one position; returns the rest. -/
def subSeqAt (ws : List String) (cs : List Char) : Option (List Char) :=
  match ws with
  | [] => some cs
  | [w] =>
    if ciPrefixOf w.toList cs then
      match cs.drop w.length with
      | [] => some (cs.drop w.length)
      | d :: _ => if isWordChar d then none else some (cs.drop w.length)
    else none
  | w :: rest =>
    if ciPrefixOf w.toList cs then
      let r1 := cs.drop w.length
      let sp := r1.takeWhile pyIsSpace
      if sp.length ≥ 1 then subSeqAt rest (r1.drop sp.length)
      else none
    else none

/-- Replace-all over a position matcher with leading word boundary (Python
`re.sub` with `\b`-anchored patterns); fuelled scan of the original text. -/
def replaceScan (matchAt : List Char → Option (List Char)) (repl : List Char) :
    Nat → Option Char → List Char → List Char
  | 0, _, cs => cs
  | _ + 1, _, [] => []
  | n + 1, prev, c :: rest =>
    let bOk : Bool :=
      match prev with
      | none => true
      | some p => !isWordChar p
    match (if bOk then matchAt (c :: rest) else none) with
    | some after =>
      let matchedLast := ((c :: rest).take ((c :: rest).length - after.length)).getLastD c
      repl ++ replaceScan matchAt repl n (some matchedLast) after
    | none => c :: replaceScan matchAt repl n (some c) rest

/-- The three phrase rewrites of `_process_responsibilities`. -/
def respRewrites (s : String) : String :=
  let cs1 := replaceScan subWorkWithAt ("collaborate with").toList
    s.toList.length none s.toList
  let cs2 := replaceScan (subSeqAt ["develop", "and", "maintain"])
    ("build").toList cs1.length none cs1
  let cs3 := replaceScan (subSeqAt ["design", "and", "implement"])
    ("create").toList cs2.length none cs2
  String.mk cs3

/-- `_process_responsibilities` of `analyze.py`: split into sentences, clean
bullets, split compound responsibilities on conjunctions, rewrite common
phrases. -/
def processResponsibilities (sources : List String) : List String :=
  sources.foldl
    (fun acc respText =>
      if respText = "" then acc
      else
        (splitOnPred (fun c => c = '.' || c = '!' || c = ';') respText).foldl
          (fun acc sentence =>
            let s := pyStrip sentence
            if pyLen s < 10 then acc
            else
              let s2 := respBulletSub s
              ((respSplitGo s2.toList.length [] s2.toList).map String.mk).foldl
                (fun acc part =>
                  let p := pyStrip part
                  if pyLen p > 8 then acc ++ [respRewrites p] else acc)
                acc)
          acc) []

/-- The normalized JD payload (`skills`, `responsibilities`). -/
structure NormalizedJd where
  skills : List String
  responsibilities : List String
deriving DecidableEq

/-- `enhanced_jd_normalization` of `analyze.py`, over the `JDSchema` shape
(the keys `requirements`, `qualifications`, `what_youll_do`,
`what you will do`, `duties`, `role` and `description` do not exist on that
schema, so their contributions are empty). -/
def enhancedJdNormalization (jd : Jd) : NormalizedJd :=
  let skillSources := jd.skills ++ jd.required ++ jd.preferred.getD []
  let respSources := jd.responsibilities
  let titleText := jd.title.getD ""
  let allTextSources :=
    skillSources ++ respSources ++ (if titleText ≠ "" then [titleText] else [])
  let extracted := extractSkillsFromText allTextSources
  let allSkillCandidates := skillSources ++ extracted
  let processedResp := processResponsibilities respSources
  let skillsRaw := explodeTerms (stripListArtifacts allSkillCandidates)
  let respRaw := explodeTerms (stripListArtifacts processedResp)
  let skillsC := canonicalizeTerms skillsRaw
  let responsibilities := respRaw.map normalizeTerm
  { skills := dedupeKeepOrder (skillsC.filter fun s => s ≠ "" ∧ pyLen s > 1),
    responsibilities :=
      dedupeKeepOrder (responsibilities.filter fun r => r ≠ "" ∧ pyLen r > 3) }

/-- `normalize_jd` of `analyze.py` (the non-enhanced variant), over the
`JDSchema` shape. -/
def normalizeJd (jd : Jd) : NormalizedJd :=
  let skillSources := jd.skills ++ jd.required ++ jd.preferred.getD []
  let respSources := jd.responsibilities
  let skillsRaw := explodeTerms (stripListArtifacts skillSources)
  let respRaw := explodeTerms (stripListArtifacts respSources)
  let skillsC := canonicalizeTerms skillsRaw
  let responsibilities := respRaw.map normalizeTerm
  { skills := dedupeKeepOrder (skillsC.filter fun s => s ≠ ""),
    responsibilities := dedupeKeepOrder (responsibilities.filter fun r => r ≠ "") }

/-! ## Hygiene flags (`utils.py`) -/

/-- Match a sequence of literal-alternation groups separated by `\s+` at one
position (leading boundary checked by the caller); returns the last matched
character and the rest, for the trailing boundary. Alternatives are tried in
order with backtracking into the continuation. -/
def seqTailAt (groups : List (List String)) (ci : Bool) (cs : List Char) :
    Option (Char × List Char) :=
  match groups with
  | [] => none
  | [g] =>
    g.findSome? fun w =>
      let wl := w.toList
      if (if ci then ciPrefixOf wl cs else wl.isPrefixOf cs) then
        some (wl.getLastD ' ', cs.drop wl.length)
      else none
  | g :: gs =>
    g.findSome? fun w =>
      let wl := w.toList
      if (if ci then ciPrefixOf wl cs else wl.isPrefixOf cs) then
        let r1 := cs.drop wl.length
        let sp := r1.takeWhile pyIsSpace
        if sp.length ≥ 1 then seqTailAt gs ci (r1.drop sp.length) else none
      else none

/-- Word-boundary search of a phrase sequence pattern
(`\b(algroup)\s+(algroup)...\b`) anywhere in a string. -/
def searchSeqAux (groups : List (List String)) (ci : Bool) (prev : Option Char) :
    List Char → Bool
  | [] => false
  | c :: rest =>
    let bOk : Bool :=
      match prev with
      | none => true
      | some p => !isWordChar p
    let here : Bool :=
      if bOk then
        match seqTailAt groups ci (c :: rest) with
        | some (lastC, after) =>
          let nextWord : Bool :=
            match after with
            | [] => false
            | d :: _ => isWordChar d
          isWordChar lastC ≠ nextWord
        | none => false
      else false
    here || searchSeqAux groups ci (some c) rest

/-- Search a phrase pattern in a string. -/
def searchSeq (groups : List (List String)) (ci : Bool) (s : String) : Bool :=
  searchSeqAux groups ci none s.toList

/-- Search `\b(alts)\b(?!\s+\d)`: a word with boundaries not followed by
whitespace and a digit (weak-quantifier pattern 7). -/
def searchNegNumAux (alts : List String) (prev : Option Char) :
    List Char → Bool
  | [] => false
  | c :: rest =>
    let bOk : Bool :=
      match prev with
      | none => true
      | some p => !isWordChar p
    let here : Bool :=
      if bOk then
        match seqTailAt [alts] true (c :: rest) with
        | some (lastC, after) =>
          let nextWord : Bool :=
            match after with
            | [] => false
            | d :: _ => isWordChar d
          if isWordChar lastC ≠ nextWord then
            let sp := after.takeWhile pyIsSpace
            !(decide (sp.length ≥ 1) &&
              (match after.drop sp.length with
               | d :: _ => d.isDigit
               | [] => false))
          else false
        | none => false
      else false
    here || searchNegNumAux alts (some c) rest

/-- Anchored search `^\s*(groups...)\b` (weak patterns 9 and 10). -/
def searchAnchored (groups : List (List String)) (s : String) : Bool :=
  let ws := s.toList.dropWhile pyIsSpace
  match seqTailAt groups true ws with
  | some (lastC, after) =>
    let nextWord : Bool :=
      match after with
      | [] => false
      | d :: _ => isWordChar d
    isWordChar lastC ≠ nextWord
  | none => false

/-- The passive-voice pattern `\b(was|were|is|are|been|being)\s+\w+ed\b`
(case-insensitive). -/
def passive1Aux (prev : Option Char) : List Char → Bool
  | [] => false
  | c :: rest =>
    let bOk : Bool :=
      match prev with
      | none => true
      | some p => !isWordChar p
    let here : Bool :=
      if bOk then
        (["was", "were", "is", "are", "been", "being"] : List String).any
          fun w =>
            if ciPrefixOf w.toList (c :: rest) then
              let r1 := (c :: rest).drop w.length
              let sp := r1.takeWhile pyIsSpace
              decide (sp.length ≥ 1) &&
                (let run := (r1.drop sp.length).takeWhile isWordChar
                 decide (run.length ≥ 3) &&
                   ("ed").toList.isSuffixOf (run.map Char.toLower))
            else false
      else false
    here || passive1Aux (some c) rest

/-- One bullet hits the rough passive-voice heuristic of `_passive_ratio`. -/
def passiveHit (b : String) : Bool :=
  passive1Aux none b.toList || searchSeq [["by"]] true b

/-- `_first_person` hit (`\b(I|me|my|we|our|us)\b`, case-insensitive). -/
def firstPersonHit (b : String) : Bool :=
  searchSeq [["I", "me", "my", "we", "our", "us"]] true b

/-- One bullet matches a `WEAK_PATTERNS` entry of `utils.py`. -/
def weakHit (b : String) : Bool :=
  searchSeq [["participated in", "involved in", "responsible for",
    "worked on", "helped", "assisted", "contributed to", "supported"]] true b
  || searchSeq [["tasked with", "assigned to", "engaged in", "took part in",
    "played a role in"]] true b
  || searchSeq [["was responsible", "was involved", "was tasked",
    "was assigned"]] true b
  || searchSeq [["various", "multiple", "several", "many", "some",
    "different"], ["projects", "tasks", "activities", "initiatives"]] true b
  || searchSeq [["gained experience", "learned about", "worked with",
    "familiar with", "exposure to"]] true b
  || searchSeq [["attended", "participated in"], ["meetings", "training",
    "workshops", "sessions"]] true b
  || searchNegNumAux ["numerous", "countless", "significant", "substantial",
    "considerable"] none b.toList
  || searchSeq [["helped to", "assisted in", "contributed to"], ["improve",
    "increase", "reduce", "enhance"]] true b
  || searchAnchored [["duties included", "responsibilities included",
    "job duties", "main tasks"]] b
  || searchAnchored [["performed", "conducted", "executed"], ["various",
    "different", "multiple"]] b

/-- One bullet matches an impact-verb pattern of `_lacks_impact_verbs`. -/
def impactHit (b : String) : Bool :=
  searchSeq [["built", "designed", "implemented", "optimized", "scaled",
    "automated", "migrated", "deployed"]] true b
  || searchSeq [["refactored", "reduced", "increased", "improved", "led",
    "delivered", "architected", "developed"]] true b
  || searchSeq [["created", "engineered", "established", "launched",
    "executed", "streamlined", "enhanced"]] true b
  || searchSeq [["accelerated", "transformed", "modernized", "integrated",
    "orchestrated", "eliminated"]] true b
  || searchSeq [["achieved", "generated", "delivered", "produced",
    "exceeded", "outperformed"]] true b

/-- One bullet matches a generic-language pattern of `hygiene_flags` (the
`[- ]` character classes are expanded into both alternatives). -/
def genericHit (b : String) : Bool :=
  searchSeq [["detail-oriented", "detail oriented", "team player",
    "fast-paced environment", "fast paced environment"]] true b
  || searchSeq [["think outside the box", "hit the ground running",
    "wear many hats"]] true b
  || searchSeq [["go-getter", "go getter", "self-starter", "self starter",
    "results-driven", "results driven"]] true b

/-- `_contact_present` of `utils.py`. -/
def contactPresent (resume : Resume) : Bool :=
  match resume.contact with
  | none => false
  | some c => c.email.getD "" ≠ "" || c.phone.getD "" ≠ "" || !c.links.isEmpty

/-- `hygiene_flags` of `utils.py` (the flag-code list; the companion stats
dict it also returns is not consumed by `analyze`). -/
def hygieneFlags (resume : Resume) : List String :=
  let bullets := resume.experience.flatMap Role.bullets
  let count := bullets.length
  let avgLen : ℚ :=
    if count = 0 then 0
    else ((bullets.map fun b => (pySplitWs b).length).sum : ℚ) / count
  let withNumbers := (bullets.filter fun b => b.toList.any Char.isDigit).length
  let passive : ℚ :=
    if bullets = [] then 1
    else min 1 (((bullets.filter passiveHit).length : ℚ) / count)
  let firstPerson := bullets.any firstPersonHit
  let weakFrac : ℚ :=
    if bullets = [] then 0
    else ((bullets.filter weakHit).length : ℚ) / count
  let lacksImpact : Bool :=
    if bullets = [] then true
    else decide (((bullets.filter impactHit).length : ℚ) / count < 3/10)
  (if count = 0 then ["no_bullets_detected"] else [])
    ++ (if avgLen < 8 then ["bullets_too_short"] else [])
    ++ (if 35 < avgLen then ["bullets_too_long"] else [])
    ++ (if withNumbers < max 1 (count / 3) then ["missing_quantified_impact"]
        else [])
    ++ (if 1/4 < passive then ["excessive_passive_voice"] else [])
    ++ (if firstPerson then ["first_person_pronouns"] else [])
    ++ (if 1/5 < weakFrac then ["weak_action_phrases"] else [])
    ++ (if lacksImpact then ["lacks_strong_verbs"] else [])
    ++ (if !contactPresent resume then ["missing_contact_info"] else [])
    ++ (if bullets.any genericHit then ["generic_language_detected"] else [])

/-! ## The `analyze` pipeline (`analyze.py`) -/

/-- The `sections` block of the analyze response. -/
structure Sections where
  skillsCoveragePct : ℤ
  preferredCoveragePct : ℤ
  domainCoveragePct : ℤ
  recencyScorePct : ℤ
  hygieneScorePct : ℤ

/-- The canonical analyze response payload (`AnalysisResult`). All list
fields are `List`-typed, hence always arrays and never null. -/
structure AnalysisResult where
  score : ℤ
  matched : List String
  missing : List String
  sections : Sections
  normalizedJDskills : List String
  normalizedJDresponsibilities : List String
  hygiene_flags : List String

/-- The JD normalization used by `analyze` (the enhanced one under the
default configuration). -/
def analyzeNormalizedJd (jd : Jd) : NormalizedJd :=
  if ENHANCED_JD_NORMALIZATION then enhancedJdNormalization jd
  else normalizeJd jd

/-- The preferred bucket of `analyze`. -/
def analyzeJdPref (jd : Jd) : List String :=
  canonicalizeTerms (explodeTerms (stripListArtifacts (jd.preferred.getD [])))

/-- The lightweight domain bucket of `analyze`: title terms and
responsibilities not already in core or preferred. -/
def analyzeDomainTerms (jd : Jd) : List String :=
  dedupeKeepOrder
    (((explodeTerms [jd.title.getD ""])
        ++ (analyzeNormalizedJd jd).responsibilities).filter
      fun t => t ∉ (analyzeNormalizedJd jd).skills ∧ t ∉ analyzeJdPref jd)

/-- The normalized résumé bullet lines of `analyze`. -/
def analyzeBulletsNorm (resume : Resume) : List String :=
  (resume.experience.flatMap Role.bullets).map normalizeTerm

/-- The haystack of `analyze`: canonicalized skills plus normalized bullets,
deduplicated. -/
def analyzeHaystack (resume : Resume) : List String :=
  dedupeKeepOrder (canonicalizeTerms resume.skills ++ analyzeBulletsNorm resume)

/-- The `coverage_canonical` closure inside `analyze`: raw similarity
against the default threshold, splitting targets into present and missing. -/
def coverageCanonical (sim : String → String → ℚ) (targets hay : List String) :
    List String × List String :=
  (targets.filter (fun t => hay.any fun h => FUZZY_THRESHOLD ≤ sim t h),
   targets.filter (fun t => !(hay.any fun h => FUZZY_THRESHOLD ≤ sim t h)))

/-- Core-bucket coverage of `analyze`. -/
def analyzeCoreCov (sim : String → String → ℚ) (resume : Resume) (jd : Jd) :
    List String × List String :=
  coverageCanonical sim (analyzeNormalizedJd jd).skills (analyzeHaystack resume)

/-- Preferred-bucket coverage of `analyze`. -/
def analyzePrefCov (sim : String → String → ℚ) (resume : Resume) (jd : Jd) :
    List String × List String :=
  coverageCanonical sim (analyzeJdPref jd) (analyzeHaystack resume)

/-- Domain-bucket coverage of `analyze`. -/
def analyzeDomainCov (sim : String → String → ℚ) (resume : Resume) (jd : Jd) :
    List String × List String :=
  coverageCanonical sim (analyzeDomainTerms jd) (analyzeHaystack resume)

/-- The weighted raw score of `analyze`, before rounding and clamping:
core, preferred and domain coverage ratios, verb alignment, hygiene, recency
and the domain title bonus, under the default weights. -/
noncomputable def analyzeScoreReal (sim : String → String → ℚ) (today : PyDate)
    (resume : Resume) (jd : Jd) : ℝ :=
  (weightCore : ℝ)
      * (((analyzeCoreCov sim resume jd).1.length : ℝ)
          / max 1 ((analyzeNormalizedJd jd).skills.length : ℝ))
    + (weightPreferred : ℝ)
      * (((analyzePrefCov sim resume jd).1.length : ℝ)
          / max 1 ((analyzeJdPref jd).length : ℝ))
    + (weightDomain : ℝ)
      * (((analyzeDomainCov sim resume jd).1.length : ℝ)
          / max 1 ((analyzeDomainTerms jd).length : ℝ))
    + (weightVerbs : ℝ)
      * ((verbAlignment sim (analyzeNormalizedJd jd).responsibilities
          (analyzeBulletsNorm resume) : ℚ) : ℝ)
    + (weightHygiene : ℝ) * ((hygieneScore resume : ℚ) : ℝ)
    + (weightRecency : ℝ)
      * enhancedRecencyScore sim today resume (analyzeNormalizedJd jd).skills
    + (computeDomainBonus resume jd : ℝ)

/-- The final clamp `max(0, min(100, int(round(score))))` of `analyze`. -/
def clampScore (x : ℤ) : ℤ := max 0 (min 100 x)

/-- `analyze` of `analyze.py` (the final, enhanced definition in the
module): the full scoring pipeline over a parsed résumé and JD, with the
external `rapidfuzz` scorer `sim` and the reference day passed explicitly. -/
noncomputable def analyze (sim : String → String → ℚ) (today : PyDate)
    (resume : Resume) (jd : Jd) : AnalysisResult :=
  { score := clampScore (pyRoundR (analyzeScoreReal sim today resume jd)),
    matched := dedupeKeepOrder (analyzeCoreCov sim resume jd).1,
    missing := dedupeKeepOrder (analyzeCoreCov sim resume jd).2,
    sections :=
      { skillsCoveragePct := pyRound (100
          * ((analyzeCoreCov sim resume jd).1.length : ℚ)
          / max 1 (((analyzeNormalizedJd jd).skills.length : ℚ))),
        preferredCoveragePct := pyRound (100
          * ((analyzePrefCov sim resume jd).1.length : ℚ)
          / max 1 (((analyzeJdPref jd).length : ℚ))),
        domainCoveragePct := pyRound (100
          * ((analyzeDomainCov sim resume jd).1.length : ℚ)
          / max 1 (((analyzeDomainTerms jd).length : ℚ))),
        recencyScorePct := pyRoundR (100
          * enhancedRecencyScore sim today resume (analyzeNormalizedJd jd).skills),
        hygieneScorePct := pyRound (100 * (hygieneScore resume : ℚ)) },
    normalizedJDskills := (analyzeNormalizedJd jd).skills,
    normalizedJDresponsibilities := (analyzeNormalizedJd jd).responsibilities,
    hygiene_flags := hygieneFlags resume }

/-! ## Helper lemmas -/

theorem clampWeight_le_one (w : ℝ) : clampWeight w ≤ 1 := by
  unfold clampWeight
  exact max_le (by norm_num) (min_le_left _ _)

theorem clampWeight_eq_self {w : ℝ} (h1 : 0.15 ≤ w) (h2 : w ≤ 1) :
    clampWeight w = w := by
  unfold clampWeight
  rw [min_eq_right h2, max_eq_right h1]

theorem roleRecencyWeightStart_le_one (today : PyDate) (r : Role) :
    roleRecencyWeightStart today r ≤ 1 := by
  unfold roleRecencyWeightStart
  split
  · exact clampWeight_le_one _
  · norm_num

theorem roleRecencyWeight_le_one (today : PyDate) (r : Role) :
    roleRecencyWeight today r ≤ 1 := by
  unfold roleRecencyWeight
  rcases hr : r.end_ with _ | e
  · exact roleRecencyWeightStart_le_one today r
  · dsimp only
    rcases eq_or_ne e "" with he | he
    · rw [if_neg (fun h => h he)]
      exact roleRecencyWeightStart_le_one today r
    · rw [if_pos he]
      exact clampWeight_le_one _

/-- Case analysis of `role_recency_weight`: the neutral 0.5 is returned only
when neither date string is present (non-empty). -/
theorem roleRecencyWeight_no_dates (today : PyDate) (r : Role)
    (hend : r.end_ = none ∨ r.end_ = some "") (hstart : r.start = "") :
    roleRecencyWeight today r = 0.5 := by
  have hs : roleRecencyWeightStart today r = 0.5 := by
    unfold roleRecencyWeightStart
    simp [hstart]
  unfold roleRecencyWeight
  rcases hend with h | h <;> rw [h] <;> simp [hs]

/-- Case analysis of `role_recency_weight`: an end of `Present` gives months
0, hence weight `clamp(exp(0), 0.15, 1.0) = 1`. -/
theorem roleRecencyWeight_present (today : PyDate) (r : Role) (e : String)
    (he : r.end_ = some e) (hne : e ≠ "")
    (hp : pyLower (pyStrip e) = "present") :
    roleRecencyWeight today r = 1 := by
  unfold roleRecencyWeight
  rw [he]
  dsimp only
  rw [if_pos hne, if_pos hp]
  norm_num [clampWeight, Real.exp_zero]

/-- Case analysis of `role_recency_weight`: a parseable non-`Present` end date
gives `clamp(exp(-months/18), 0.15, 1.0)` with months counted to `today`. -/
theorem roleRecencyWeight_parsed (today : PyDate) (r : Role) (e : String)
    (d : PyDate) (he : r.end_ = some e) (hne : e ≠ "")
    (hp : pyLower (pyStrip e) ≠ "present")
    (hd : parseMonthYear today e = some d) :
    roleRecencyWeight today r
      = clampWeight (Real.exp (-((monthsAgo today d : ℤ) : ℝ) / 18)) := by
  unfold roleRecencyWeight
  rw [he]
  dsimp only
  rw [if_pos hne, if_neg hp, hd]

/-- Case analysis of `role_recency_weight`: a non-empty, non-`Present`,
unparseable end date falls back to months = 24, not to the neutral 0.5. -/
theorem roleRecencyWeight_unparseable (today : PyDate) (r : Role) (e : String)
    (he : r.end_ = some e) (hne : e ≠ "")
    (hp : pyLower (pyStrip e) ≠ "present")
    (hd : parseMonthYear today e = none) :
    roleRecencyWeight today r
      = clampWeight (Real.exp (-((24 : ℤ) : ℝ) / 18)) := by
  unfold roleRecencyWeight
  rw [he]
  dsimp only
  rw [if_pos hne, if_neg hp, hd]

/-- Numeric bounds for `exp(-24/18) = exp(-4/3)`: it lies strictly between
0.15 and 1/2, so the months-24 fallback weight is `exp(-4/3)` itself and in
particular differs from the neutral 0.5. -/
theorem exp_neg_four_thirds_bounds :
    (0.15 : ℝ) < Real.exp (-(4 / 3 : ℝ))
      ∧ Real.exp (-(4 / 3 : ℝ)) < 1 / 2 := by
  constructor
  · -- exp(4/3) < 20/3, by cubing: exp(4) < 2.7182818286^4 < (20/3)^3
    have hpow : Real.exp (4 / 3 : ℝ) ^ (3 : ℕ) = Real.exp 4 := by
      rw [← Real.exp_nat_mul]
      norm_num
    have h4 : Real.exp 4 = Real.exp 1 ^ (4 : ℕ) := by
      rw [← Real.exp_nat_mul]
      norm_num
    have he1 : Real.exp 1 < 2.7182818286 := Real.exp_one_lt_d9
    have hb : Real.exp 4 < (20 / 3 : ℝ) ^ (3 : ℕ) := by
      rw [h4]
      calc Real.exp 1 ^ (4 : ℕ) < 2.7182818286 ^ (4 : ℕ) :=
            pow_lt_pow_left₀ he1 (le_of_lt (Real.exp_pos 1)) (by norm_num)
        _ < (20 / 3 : ℝ) ^ (3 : ℕ) := by norm_num
    have hlt : Real.exp (4 / 3 : ℝ) < 20 / 3 := by
      have := hpow ▸ hb
      exact lt_of_pow_lt_pow_left₀ 3 (by norm_num) this
    have hinv : (20 / 3 : ℝ)⁻¹ < (Real.exp (4 / 3 : ℝ))⁻¹ :=
      inv_strictAnti₀ (Real.exp_pos _) hlt
    rw [Real.exp_neg]
    calc (0.15 : ℝ) = (20 / 3 : ℝ)⁻¹ := by norm_num
      _ < (Real.exp (4 / 3 : ℝ))⁻¹ := hinv
  · -- 2 < exp(4/3), since 1 + 4/3 ≤ exp(4/3)
    have h2 : (2 : ℝ) < Real.exp (4 / 3 : ℝ) := by
      have := Real.add_one_le_exp (4 / 3 : ℝ)
      linarith
    have hinv : (Real.exp (4 / 3 : ℝ))⁻¹ < (2 : ℝ)⁻¹ :=
      inv_strictAnti₀ (by norm_num) h2
    rw [Real.exp_neg]
    calc (Real.exp (4 / 3 : ℝ))⁻¹ < (2 : ℝ)⁻¹ := hinv
      _ = 1 / 2 := by norm_num

theorem canonFold_nodup (terms : List String) (acc : List String)
    (h : acc.Nodup) : (terms.foldl canonStep acc).Nodup := by
  induction terms generalizing acc with
  | nil => exact h
  | cons t ts ih =>
    apply ih
    unfold canonStep
    split
    · rename_i hc
      rw [List.nodup_append]
      exact ⟨h, List.nodup_singleton _,
        fun a ha hmem => hc.1 (List.mem_singleton.1 hmem ▸ ha)⟩
    · exact h

theorem canonFold_ne_empty (terms : List String) (acc : List String)
    (h : ∀ a ∈ acc, a ≠ "") : ∀ a ∈ terms.foldl canonStep acc, a ≠ "" := by
  induction terms generalizing acc with
  | nil => exact h
  | cons t ts ih =>
    apply ih
    unfold canonStep
    split
    · rename_i hc
      intro a ha
      rcases List.mem_append.1 ha with h1 | h1
      · exact h a h1
      · have hae := List.mem_singleton.1 h1
        subst hae
        exact hc.2
    · exact h

theorem canonFold_fixed (y : List String) (acc : List String)
    (hnd : y.Nodup) (hfix : ∀ c ∈ y, canonOfTerm c = c)
    (hne : ∀ c ∈ y, c ≠ "") (hdisj : ∀ c ∈ y, c ∉ acc) :
    y.foldl canonStep acc = acc ++ y := by
  induction y generalizing acc with
  | nil => simp
  | cons c y ih =>
    have hstep : canonStep acc c = acc ++ [c] := by
      unfold canonStep
      rw [hfix c (List.mem_cons_self c y)]
      rw [if_pos ⟨hdisj c (List.mem_cons_self c y), hne c (List.mem_cons_self c y)⟩]
    rw [List.foldl_cons, hstep,
      ih (acc ++ [c]) (List.Nodup.of_cons hnd)
        (fun v hv => hfix v (List.mem_cons_of_mem c hv))
        (fun v hv => hne v (List.mem_cons_of_mem c hv))
        (fun v hv => by
          intro hmem
          rcases List.mem_append.1 hmem with h1 | h1
          · exact hdisj v (List.mem_cons_of_mem c hv) h1
          · rcases List.mem_singleton.1 h1 with rfl
            exact (List.nodup_cons.1 hnd).1 hv)]
    simp

theorem sectionBodies_nil : sectionBodies [] = [] := rfl

theorem sectionBodies_cons (p : String × List String)
    (m : List (String × List String)) :
    sectionBodies (p :: m) = p.2 ++ sectionBodies m := by
  simp [sectionBodies]

theorem sectionBodies_setdefault (m : List (String × List String))
    (k : String) : sectionBodies (setdefault m k) = sectionBodies m := by
  induction m with
  | nil => simp [setdefault, sectionBodies]
  | cons p m ih =>
    unfold setdefault
    split
    · rfl
    · rw [sectionBodies_cons, sectionBodies_cons, ih]

theorem sectionBodies_appendLine (m : List (String × List String))
    (k v : String) :
    List.Perm (sectionBodies (appendLine m k v)) (sectionBodies m ++ [v]) := by
  induction m with
  | nil => simp [appendLine, sectionBodies]
  | cons p m ih =>
    unfold appendLine
    split
    · rw [sectionBodies_cons, sectionBodies_cons, List.append_assoc,
        List.append_assoc]
      exact List.Perm.append_left p.2 List.perm_append_comm
    · rw [sectionBodies_cons, sectionBodies_cons, List.append_assoc]
      exact List.Perm.append_left p.2 ih

theorem splitSectionsGo_perm (ls : List String) : ∀ (cur : String)
    (m : List (String × List String)),
    List.Perm (sectionBodies (splitSectionsGo ls cur m))
      (sectionBodies m ++ ls.filter (fun l => !(isHeaderLine (pyStrip l)))) := by
  induction ls with
  | nil =>
    intro cur m
    simp [splitSectionsGo]
  | cons ln rest ih =>
    intro cur m
    unfold splitSectionsGo
    by_cases h : isHeaderLine (pyStrip ln)
    · rw [if_pos h]
      have hrec := ih (guessSectionName (pyStripSet [':'] (pyStrip ln)))
        (setdefault m (guessSectionName (pyStripSet [':'] (pyStrip ln))))
      rw [sectionBodies_setdefault] at hrec
      simpa [List.filter_cons, h] using hrec
    · rw [if_neg h]
      have hrec := ih cur (appendLine m cur ln)
      have happ := (sectionBodies_appendLine m cur ln).append_right
        (rest.filter (fun l => !(isHeaderLine (pyStrip l))))
      have : List.Perm (sectionBodies (splitSectionsGo rest cur (appendLine m cur ln)))
          ((sectionBodies m ++ [ln])
            ++ rest.filter (fun l => !(isHeaderLine (pyStrip l)))) :=
        hrec.trans happ
      simpa [List.filter_cons, h, List.append_assoc] using this

theorem getSec_setdefault_some (m : List (String × List String))
    (k k' : String) (b : List String) (h : getSec m k' = some b) :
    getSec (setdefault m k) k' = some b := by
  induction m with
  | nil => simp [getSec] at h
  | cons p m ih =>
    unfold setdefault
    split
    · exact h
    · unfold getSec at h ⊢
      split at h
      · rename_i hk
        rw [if_pos hk]
        exact h
      · rename_i hk
        rw [if_neg hk]
        exact ih h

theorem getSec_appendLine_same (m : List (String × List String))
    (k v : String) :
    getSec (appendLine m k v) k = some (((getSec m k).getD []) ++ [v]) := by
  induction m with
  | nil => simp [appendLine, getSec]
  | cons p m ih =>
    unfold appendLine
    split
    · rename_i hk
      unfold getSec
      rw [if_pos hk, if_pos hk]
      simp
    · rename_i hk
      unfold getSec
      rw [if_neg hk, if_neg hk]
      exact ih

theorem getSec_appendLine_other (m : List (String × List String))
    (k k' v : String) (h : k' ≠ k) :
    getSec (appendLine m k v) k' = getSec m k' := by
  induction m with
  | nil =>
    show getSec [(k, [v])] k' = getSec [] k'
    unfold getSec
    rw [if_neg (fun hc => h hc.symm)]
    rfl
  | cons p m ih =>
    unfold appendLine
    split
    · rename_i hk
      unfold getSec
      rcases eq_or_ne p.1 k' with he | he
      · exact absurd (he.symm.trans hk) h
      · rw [if_neg he, if_neg he]
    · unfold getSec
      rcases eq_or_ne p.1 k' with he | he
      · rw [if_pos he, if_pos he]
      · rw [if_neg he, if_neg he]
        exact ih

theorem getSec_go_prefix (ls : List String) : ∀ (cur : String)
    (m : List (String × List String)) (k : String) (b : List String),
    getSec m k = some b →
    ∃ b', getSec (splitSectionsGo ls cur m) k = some b' ∧ List.IsPrefix b b' := by
  induction ls with
  | nil =>
    intro cur m k b h
    exact ⟨b, h, List.prefix_refl b⟩
  | cons ln rest ih =>
    intro cur m k b h
    unfold splitSectionsGo
    by_cases hh : isHeaderLine (pyStrip ln)
    · rw [if_pos hh]
      exact ih _ _ k b (getSec_setdefault_some m _ k b h)
    · rw [if_neg hh]
      rcases eq_or_ne k cur with hk | hk
      · subst hk
        have hsame := getSec_appendLine_same m k ln
        rw [h] at hsame
        rcases ih k (appendLine m k ln) k (b ++ [ln]) (by simpa using hsame)
          with ⟨b', hb', hpre⟩
        exact ⟨b', hb', ((b.prefix_append [ln]).trans hpre)⟩
      · rcases ih cur (appendLine m cur ln) k b
          (by rw [getSec_appendLine_other m cur k ln hk]; exact h)
          with ⟨b', hb', hpre⟩
        exact ⟨b', hb', hpre⟩

theorem go_unknown_prefix (ls : List String) :
    ∀ (m : List (String × List String)) (b : List String),
    getSec m "unknown" = some b →
    List.IsPrefix (b ++ ls.takeWhile (fun l => !(isHeaderLine (pyStrip l))))
      ((getSec (splitSectionsGo ls "unknown" m) "unknown").getD []) := by
  induction ls with
  | nil =>
    intro m b h
    simp only [splitSectionsGo, List.takeWhile_nil, List.append_nil, h,
      Option.getD_some]
    exact List.prefix_refl b
  | cons ln rest ih =>
    intro m b h
    unfold splitSectionsGo
    by_cases hh : isHeaderLine (pyStrip ln)
    · rw [if_pos hh]
      rcases getSec_go_prefix rest _ (setdefault m _) "unknown" b
        (getSec_setdefault_some m _ "unknown" b h) with ⟨b2, hb2, hpre⟩
      rw [hb2, Option.getD_some]
      have htw : (ln :: rest).takeWhile (fun l => !(isHeaderLine (pyStrip l)))
          = [] := by
        simp [List.takeWhile_cons, hh]
      rw [htw, List.append_nil]
      exact hpre
    · rw [if_neg hh]
      have hb : isHeaderLine (pyStrip ln) = false := by
        simpa using hh
      have htw : (ln :: rest).takeWhile (fun l => !(isHeaderLine (pyStrip l)))
          = ln :: rest.takeWhile (fun l => !(isHeaderLine (pyStrip l))) := by
        simp [List.takeWhile_cons, hb]
      rw [htw]
      have hsame := getSec_appendLine_same m "unknown" ln
      rw [h] at hsame
      have hrec := ih (appendLine m "unknown" ln) (b ++ [ln])
        (by simpa using hsame)
      have heq : b ++ ln :: rest.takeWhile (fun l => !(isHeaderLine (pyStrip l)))
          = (b ++ [ln]) ++ rest.takeWhile (fun l => !(isHeaderLine (pyStrip l))) := by
        simp
      rw [heq]
      exact hrec

theorem guardAppend_nodup (out : List String) (c : String)
    (h : out.Nodup) : (guardAppend out c).Nodup := by
  unfold guardAppend
  split
  · rename_i hc
    rw [List.nodup_append]
    exact ⟨h, List.nodup_singleton _,
      fun a ha hmem => hc.2 (List.mem_singleton.1 hmem ▸ ha)⟩
  · exact h

theorem skillPartStep_nodup (out : List String) (p : String)
    (h : out.Nodup) : (skillPartStep out p).Nodup := by
  unfold skillPartStep
  split
  · exact h
  · rcases hh : headerWithSkillOf p with _ | hs
    · simp only [hh]
      split
      · exact h
      · exact guardAppend_nodup out _ h
    · simp only [hh]
      exact guardAppend_nodup out _ h

theorem skillPartsFold_nodup (parts : List String) (out : List String)
    (h : out.Nodup) : (parts.foldl skillPartStep out).Nodup := by
  induction parts generalizing out with
  | nil => exact h
  | cons p ps ih => exact ih _ (skillPartStep_nodup out p h)

theorem skillLineStep_nodup (out : List String) (ln : String)
    (h : out.Nodup) : (skillLineStep out ln).Nodup := by
  unfold skillLineStep
  split
  · exact h
  · exact skillPartsFold_nodup (skillLineParts ln) out h

theorem normalizeSkillLines_nodup (lines : List String) :
    (normalizeSkillLines lines).Nodup := by
  unfold normalizeSkillLines
  have hgen : ∀ (ls : List String) (out : List String), out.Nodup →
      (ls.foldl skillLineStep out).Nodup := by
    intro ls
    induction ls with
    | nil => exact fun out h => h
    | cons l ls ih => exact fun out h => ih _ (skillLineStep_nodup out l h)
  exact hgen lines [] List.nodup_nil

theorem mergeSkillsIntoRequired_mono (skills : List String) :
    ∀ (req : List String) (a : String), a ∈ req →
      a ∈ mergeSkillsIntoRequired req skills := by
  induction skills with
  | nil => exact fun req a ha => ha
  | cons s ss ih =>
    intro req a ha
    unfold mergeSkillsIntoRequired at ih ⊢
    rw [List.foldl_cons]
    apply ih
    split
    · exact List.mem_append_left _ ha
    · exact ha

theorem mergeSkillsIntoRequired_mem (skills : List String) :
    ∀ (req : List String) (s : String), s ∈ skills →
      s ∈ mergeSkillsIntoRequired req skills := by
  induction skills with
  | nil => intro req s hs; cases hs
  | cons t ts ih =>
    intro req s hs
    unfold mergeSkillsIntoRequired at ih ⊢
    rw [List.foldl_cons]
    rcases List.mem_cons.1 hs with rfl | hs
    · apply mergeSkillsIntoRequired_mono ts
      split
      · exact List.mem_append_right _ (List.mem_singleton_self _)
      · rename_i hmem
        simpa using hmem
    · exact ih _ s hs

theorem mergeSkillsIntoRequired_nodup (skills : List String) :
    ∀ (req : List String), req.Nodup →
      (mergeSkillsIntoRequired req skills).Nodup := by
  induction skills with
  | nil => exact fun req h => h
  | cons s ss ih =>
    intro req h
    unfold mergeSkillsIntoRequired at ih ⊢
    rw [List.foldl_cons]
    apply ih
    split
    · rename_i hmem
      rw [List.nodup_append]
      exact ⟨h, List.nodup_singleton _,
        fun a ha hm => hmem (List.mem_singleton.1 hm ▸ ha)⟩
    · exact h

theorem clampScore_bounds (x : ℤ) : 0 ≤ clampScore x ∧ clampScore x ≤ 100 := by
  unfold clampScore
  exact ⟨le_max_left 0 _, max_le (by norm_num) (min_le_left _ _)⟩

theorem pyRound_intCast (n : ℤ) : pyRound (n : ℚ) = n := by
  unfold pyRound
  norm_num [Int.floor_intCast]

theorem pyRoundR_intCast (n : ℤ) : pyRoundR (n : ℝ) = n := by
  unfold pyRoundR
  norm_num [Int.floor_intCast]

theorem coverageCanonical_empty_hay (sim : String → String → ℚ)
    (ts : List String) : coverageCanonical sim ts [] = ([], ts) := by
  unfold coverageCanonical
  simp

theorem coverageCanonical_all_present (sim : String → String → ℚ)
    (ts hay : List String)
    (h : ∀ t ∈ ts, (hay.any fun h2 => FUZZY_THRESHOLD ≤ sim t h2) = true) :
    coverageCanonical sim ts hay = (ts, []) := by
  unfold coverageCanonical
  refine Prod.ext ?_ ?_
  · exact List.filter_eq_self.2 h
  · apply List.filter_eq_nil_iff.2
    intro t ht
    simp [h t ht]

theorem mem_dedupe_fold (l : List String) :
    ∀ (acc : List String) (a : String), a ∈ acc ∨ a ∈ l →
      a ∈ l.foldl (fun out x => if x ∉ out then out ++ [x] else out) acc := by
  induction l with
  | nil =>
    intro acc a h
    rcases h with h | h
    · exact h
    · cases h
  | cons x xs ih =>
    intro acc a h
    rw [List.foldl_cons]
    apply ih
    rcases h with h | h
    · left
      split
      · exact List.mem_append_left _ h
      · exact h
    · rcases List.mem_cons.1 h with rfl | h
      · left
        split
        · exact List.mem_append_right _ (List.mem_singleton_self _)
        · rename_i hx
          simpa using hx
      · right
        exact h

theorem mem_dedupeKeepOrder_of_mem {a : String} {l : List String}
    (h : a ∈ l) : a ∈ dedupeKeepOrder l :=
  mem_dedupe_fold l [] a (Or.inr h)

theorem verbAlignment_nil (sim : String → String → ℚ)
    (resp : List String) : verbAlignment sim resp [] = 0 := by
  have hf : ∀ (vs : List String),
      (vs.filter fun v => fuzzyContains sim v [] FUZZY_THRESHOLD) = [] := by
    intro vs
    apply List.filter_eq_nil_iff.2
    intro v _
    simp [fuzzyContains]
  unfold verbAlignment
  simp [hf]

theorem enhancedRecencyScore_emptyResume (sim : String → String → ℚ)
    (today : PyDate) (ct : List String) :
    enhancedRecencyScore sim today emptyResume ct = 0 := by
  unfold enhancedRecencyScore
  rw [if_pos (Or.inr ⟨rfl, rfl⟩)]

theorem computeDomainBonus_emptyResume (jd : Jd) :
    computeDomainBonus emptyResume jd = 0 := by
  simp only [computeDomainBonus]
  split_ifs with h1 h2 h3 h4 <;> first | rfl | exact absurd rfl h3

theorem analyzeHaystack_emptyResume : analyzeHaystack emptyResume = [] := rfl

theorem analyzeScoreReal_emptyResume (sim : String → String → ℚ)
    (today : PyDate) (jd : Jd) :
    analyzeScoreReal sim today emptyResume jd = 1 := by
  unfold analyzeScoreReal
  have hcov : ∀ ts, coverageCanonical sim ts (analyzeHaystack emptyResume)
      = ([], ts) := by
    intro ts
    rw [analyzeHaystack_emptyResume]
    exact coverageCanonical_empty_hay sim ts
  have hcore : analyzeCoreCov sim emptyResume jd
      = ([], (analyzeNormalizedJd jd).skills) := hcov _
  have hpref : analyzePrefCov sim emptyResume jd = ([], analyzeJdPref jd) :=
    hcov _
  have hdom : analyzeDomainCov sim emptyResume jd
      = ([], analyzeDomainTerms jd) := hcov _
  have hverb : verbAlignment sim (analyzeNormalizedJd jd).responsibilities
      (analyzeBulletsNorm emptyResume) = 0 := verbAlignment_nil sim _
  rw [hcore, hpref, hdom, hverb, enhancedRecencyScore_emptyResume,
    computeDomainBonus_emptyResume]
  have hhyg : hygieneScore emptyResume = 1/5 := rfl
  rw [hhyg]
  simp [weightCore, weightPreferred, weightDomain, weightVerbs,
    weightHygiene, weightRecency]

theorem analyzeEmptyResumeEval (sim : String → String → ℚ) (today : PyDate)
    (jd : Jd) :
    (analyze sim today emptyResume jd).score = 1
      ∧ (analyze sim today emptyResume jd).matched = [] := by
  constructor
  · show clampScore (pyRoundR (analyzeScoreReal sim today emptyResume jd)) = 1
    rw [analyzeScoreReal_emptyResume]
    rw [show (1 : ℝ) = ((1 : ℤ) : ℝ) by norm_num, pyRoundR_intCast]
    rfl
  · show dedupeKeepOrder (analyzeCoreCov sim emptyResume jd).1 = []
    have hcov : analyzeCoreCov sim emptyResume jd
        = ([], (analyzeNormalizedJd jd).skills) := by
      show coverageCanonical sim _ (analyzeHaystack emptyResume) = _
      rw [analyzeHaystack_emptyResume]
      exact coverageCanonical_empty_hay sim _
    rw [hcov]
    rfl

/-! ## Claim theorems -/

/-- C10: `split_sections` assigns every input line to exactly one section:
the flattened section bodies are a permutation of the non-header input lines
(no line dropped, none duplicated); header lines only name sections; and the
lines before the first header form a prefix of the `unknown` bucket. -/
theorem split_sections_partition (lines : List String) :
    List.Perm (sectionBodies (splitSections lines))
        (lines.filter (fun l => !(isHeaderLine (pyStrip l))))
      ∧ List.IsPrefix
          (lines.takeWhile (fun l => !(isHeaderLine (pyStrip l))))
          ((getSec (splitSections lines) "unknown").getD []) := by
  constructor
  · have h := splitSectionsGo_perm lines "unknown" []
    simpa [splitSections, sectionBodies] using h
  · rcases hl : lines with _ | ⟨ln, rest⟩
    · simp [splitSections, splitSectionsGo, getSec]
    · show List.IsPrefix _ ((getSec (splitSectionsGo (ln :: rest) "unknown" []) "unknown").getD [])
      unfold splitSectionsGo
      by_cases hh : isHeaderLine (pyStrip ln)
      · rw [if_pos hh]
        have htw : (ln :: rest).takeWhile (fun l => !(isHeaderLine (pyStrip l)))
            = [] := by
          simp [List.takeWhile_cons, hh]
        rw [htw]
        exact List.nil_prefix
      · rw [if_neg hh]
        have hb : isHeaderLine (pyStrip ln) = false := by
          simpa using hh
        have htw : (ln :: rest).takeWhile (fun l => !(isHeaderLine (pyStrip l)))
            = ln :: rest.takeWhile (fun l => !(isHeaderLine (pyStrip l))) := by
          simp [List.takeWhile_cons, hb]
        rw [htw]
        have h0 : getSec (appendLine [] "unknown" ln) "unknown" = some [ln] := by
          simp [appendLine, getSec]
        have := go_unknown_prefix rest (appendLine [] "unknown" ln) [ln] h0
        simpa using this

/-- C6 counterexample: `canonicalize_terms` is not idempotent. The token
`?-x` cleans to `-x` (the question mark becomes a space, which is stripped,
uncovering the dash), and a second application strips the now-leading dash,
giving `x`. -/
theorem canonicalize_terms_not_idempotent :
    canonicalizeTerms (canonicalizeTerms ["?-x"])
      ≠ canonicalizeTerms ["?-x"] := by decide

/-- C6 (corrected): `canonicalize_terms` is idempotent on every input whose
canonicalized output terms are themselves fixed points of single-term
canonicalization — in particular whenever each output is a canonical alias
name or a cleaned unknown term that does not start with a dash or bullet. In
general a second application can strip further leading dashes uncovered by
the first cleaning pass, so idempotence fails (see the counterexample). -/
theorem canonicalize_terms_idempotent_on_fixed (x : List String)
    (h : ∀ c ∈ canonicalizeTerms x, canonOfTerm c = c) :
    canonicalizeTerms (canonicalizeTerms x) = canonicalizeTerms x := by
  have hnd : (canonicalizeTerms x).Nodup :=
    canonFold_nodup x [] List.nodup_nil
  have hne : ∀ c ∈ canonicalizeTerms x, c ≠ "" :=
    canonFold_ne_empty x [] (by intro a ha; cases ha)
  have := canonFold_fixed (canonicalizeTerms x) [] hnd h hne
    (by intro c _ hc; cases hc)
  simpa [canonicalizeTerms] using this

/-- Witness for C6 at the alias-equivalence example of the spec:
`["js", "javascript", "JavaScript"]` canonicalizes to `["JavaScript"]`, whose
terms are fixed points, so a second application changes nothing. -/
theorem canonicalize_terms_idempotent_witness :
    (∀ c ∈ canonicalizeTerms ["js", "javascript", "JavaScript"],
        canonOfTerm c = c)
      ∧ canonicalizeTerms
            (canonicalizeTerms ["js", "javascript", "JavaScript"])
          = canonicalizeTerms ["js", "javascript", "JavaScript"] :=
  ⟨by decide, canonicalize_terms_idempotent_on_fixed _ (by decide)⟩

/-- C2 counterexample: parsing the four-line résumé text does not produce a
role titled `Software Engineer`. The title line and the date line are both
classified as role headers, so the title-only role is flushed without bullets
and discarded, and the surviving role (opened by the date line) has an empty
title. -/
theorem parse_four_line_role_not_titled :
    ((resumeExperienceOf
        "Software Engineer\nOct 2023 – Present\nAcme Corp, Remote\n• Built APIs").map
      Role.role) ≠ ["Software Engineer"] := by decide

/-- C2 (corrected): the four-line résumé text parses to exactly one
`ExperienceRole`, with `start = Oct 2023`, `end = Present`,
`company = Acme Corp`, `location = Remote`, and exactly the bullet
`Built APIs` — but with an empty `role` field, because the title-only line
becomes a separate bulletless role that is discarded. -/
theorem parse_four_line_role_fields :
    resumeExperienceOf
        "Software Engineer\nOct 2023 – Present\nAcme Corp, Remote\n• Built APIs"
      = [{ company := "Acme Corp", role := "", location := some "Remote",
           start := "Oct 2023", end_ := some "Present",
           bullets := ["Built APIs"] }] := by decide

/-- C9: in the JobDescription returned by `parse_jd_text`, every entry of the
skills list also appears in the required list (absent skills are appended by
the merge loop), and the required list has no duplicate entries
(`normalize_skill_lines` deduplicates and the merge only appends new
entries). -/
theorem parse_jd_skills_subset_required_nodup (content : String) :
    (∀ s ∈ (parseJdText content).skills, s ∈ (parseJdText content).required)
      ∧ (parseJdText content).required.Nodup := by
  constructor
  · intro s hs
    exact mergeSkillsIntoRequired_mem _ _ s hs
  · exact mergeSkillsIntoRequired_nodup _ _ (normalizeSkillLines_nodup _)

/-- C8: the date parsing table of `_parse_month_year`: month-name dates parse
to the first of the month, a bare year parses to the mid-year fallback
(June 1), and the empty string and free text parse to `None`. The function is
total, so no input raises. -/
theorem parse_month_year_table (today : PyDate) :
    parseMonthYear today "Oct 2024" = some ⟨2024, 10, 1⟩
      ∧ parseMonthYear today "2024" = some ⟨2024, 6, 1⟩
      ∧ parseMonthYear today "" = none
      ∧ parseMonthYear today "Invalid text" = none :=
  ⟨rfl, rfl, rfl, rfl⟩

/-- C7 (recency monotonicity): a role whose raw end date is `Present` has
recency weight 1, the maximum of the clamp, so its weight is at least the
weight of any other role, in particular one that ended five years before the
reference date. -/
theorem recency_present_ge (today : PyDate) (r1 r2 : Role)
    (h : r1.end_ = some "Present") :
    roleRecencyWeight today r2 ≤ roleRecencyWeight today r1 := by
  rw [roleRecencyWeight_present today r1 "Present" h (by decide) (by decide)]
  exact roleRecencyWeight_le_one today r2

/-- Witness for C7 at concrete roles: identical bullets, one ending
`Present`, the other five years before the reference date 2024-10-01. -/
theorem recency_present_ge_witness :
    roleRecencyWeight ⟨2024, 10, 1⟩
        { role := "Engineer", start := "Jan 2018", end_ := some "Oct 2019",
          bullets := ["Built APIs"] }
      ≤ roleRecencyWeight ⟨2024, 10, 1⟩
        { role := "Engineer", start := "Jan 2020", end_ := some "Present",
          bullets := ["Built APIs"] } :=
  recency_present_ge ⟨2024, 10, 1⟩ _ _ rfl

/-- C4 (corrected): the neutral default 0.5 is returned only when both date
strings are absent or empty. A non-empty but unparseable end date instead
falls back to months = 24, giving `clamp(exp(-24/18), 0.15, 1.0)`; a
parseable end date gives `clamp(exp(-months_since_end/18), 0.15, 1.0)` with
`months_since_end = 0` when the end is `Present` (then the weight is 1). -/
theorem role_recency_weight_cases (today : PyDate) (r : Role) :
    ((r.end_ = none ∨ r.end_ = some "") → r.start = "" →
        roleRecencyWeight today r = 0.5)
      ∧ (∀ e, r.end_ = some e → e ≠ "" → pyLower (pyStrip e) = "present" →
          roleRecencyWeight today r = 1)
      ∧ (∀ e d, r.end_ = some e → e ≠ "" → pyLower (pyStrip e) ≠ "present" →
          parseMonthYear today e = some d →
          roleRecencyWeight today r
            = clampWeight (Real.exp (-((monthsAgo today d : ℤ) : ℝ) / 18)))
      ∧ (∀ e, r.end_ = some e → e ≠ "" → pyLower (pyStrip e) ≠ "present" →
          parseMonthYear today e = none →
          roleRecencyWeight today r
            = clampWeight (Real.exp (-((24 : ℤ) : ℝ) / 18))) :=
  ⟨fun hend hstart => roleRecencyWeight_no_dates today r hend hstart,
   fun e he hne hp => roleRecencyWeight_present today r e he hne hp,
   fun e d he hne hp hd => roleRecencyWeight_parsed today r e d he hne hp hd,
   fun e he hne hp hd => roleRecencyWeight_unparseable today r e he hne hp hd⟩

/-- Witness for C4 at concrete roles: no dates at all gives 0.5; `Present`
gives 1; the parseable end `Oct 2020` takes the clamp formula. -/
theorem role_recency_weight_cases_witness :
    roleRecencyWeight ⟨2024, 10, 1⟩ {} = 0.5
      ∧ roleRecencyWeight ⟨2024, 10, 1⟩ { end_ := some "Present" } = 1
      ∧ roleRecencyWeight ⟨2024, 10, 1⟩ { end_ := some "Oct 2020" }
          = clampWeight
              (Real.exp (-((monthsAgo ⟨2024, 10, 1⟩ ⟨2020, 10, 1⟩ : ℤ) : ℝ) / 18)) :=
  ⟨(role_recency_weight_cases ⟨2024, 10, 1⟩ {}).1 (Or.inl rfl) rfl,
   (role_recency_weight_cases ⟨2024, 10, 1⟩ _).2.1 "Present" rfl (by decide)
     (by decide),
   (role_recency_weight_cases ⟨2024, 10, 1⟩ _).2.2.1 "Oct 2020" ⟨2020, 10, 1⟩
     rfl (by decide) (by decide) (by decide)⟩

/-- C4 counterexample: a role whose start and end strings are both
unparseable text does not get the neutral weight 0.5 — the end-date branch
falls back to months = 24 and yields `exp(-4/3) ≈ 0.264`. -/
theorem role_recency_weight_unparseable_ne_half :
    roleRecencyWeight ⟨2024, 10, 1⟩
        { start := "garbage", end_ := some "garbage" } ≠ 0.5 := by
  have h := roleRecencyWeight_unparseable ⟨2024, 10, 1⟩
    { start := "garbage", end_ := some "garbage" } "garbage" rfl (by decide)
    (by decide) (by decide)
  rw [h]
  have hb := exp_neg_four_thirds_bounds
  have hval : ((24 : ℤ) : ℝ) / 18 = (4 / 3 : ℝ) := by norm_num
  have heq : clampWeight (Real.exp (-((24 : ℤ) : ℝ) / 18))
      = Real.exp (-(4 / 3 : ℝ)) := by
    rw [neg_div, hval]
    exact clampWeight_eq_self (le_of_lt hb.1)
      (le_of_lt (lt_trans hb.2 (by norm_num)))
  rw [heq]
  intro hcontra
  have : Real.exp (-(4 / 3 : ℝ)) < 1 / 2 := hb.2
  rw [hcontra] at this
  norm_num at this

/-- C1: for every résumé, JD, similarity scorer and reference day, the
`analyze` result has an integer score in the range [0, 100], by the final
`max(0, min(100, int(round(score))))` clamp.  The list fields `matched`,
`missing`, `normalizedJD.skills`, `normalizedJD.responsibilities` and
`hygiene_flags` are total `List`-valued projections in the embedding, so
they are always lists, never null. -/
theorem analyze_score_in_range (sim : String → String → ℚ) (today : PyDate)
    (resume : Resume) (jd : Jd) :
    0 ≤ (analyze sim today resume jd).score
      ∧ (analyze sim today resume jd).score ≤ 100 :=
  clampScore_bounds (pyRoundR (analyzeScoreReal sim today resume jd))

/-- C3 (amended): `analyze` itself never short-circuits.  On the empty
résumé against any JD the weighted pipeline runs in full: every coverage
ratio, the verb alignment, the recency score and the domain bonus are 0,
the hygiene term is the no-bullets floor 0.2, so the score is
round(5 * 0.2) = 1 — not 0 — and `matched = []`.  The score-0
short-circuit for empty inputs lives in the `/api/analyze` endpoint of
`main.py`, upstream of `analyze`. -/
theorem analyze_empty_resume_result (sim : String → String → ℚ)
    (today : PyDate) (jd : Jd) :
    (analyze sim today emptyResume jd).score = 1
      ∧ (analyze sim today emptyResume jd).matched = [] :=
  analyzeEmptyResumeEval sim today jd

/-- C3 counterexample: against the non-trivial JD requiring "Python", the
empty résumé gets score 1 from `analyze` (the hygiene floor), not 0. -/
theorem analyze_empty_resume_score_nonzero :
    ({ required := ["Python"] } : Jd).required ≠ []
      ∧ (analyze (fun _ _ => (100 : ℚ)) ⟨2024, 10, 1⟩ emptyResume
          { required := ["Python"] }).score ≠ 0 := by
  constructor
  · decide
  · have h := analyzeEmptyResumeEval (fun _ _ => (100 : ℚ)) ⟨2024, 10, 1⟩
      { required := ["Python"] }
    rw [h.1]
    decide

/-- C5 (amended): under a reflexive scorer (`sim s s = 100`, as
rapidfuzz's `token_set_ratio` is), if the canonicalized core bucket is
non-empty and every core term is literally present in the résumé's
canonicalized skill list, then `sections.skillsCoveragePct = 100` and
`missing = []`; and in general each bucket's coverage percentage equals
`round(100 * present_count / max(1, bucket_size))`, with `present_count`
the number of bucket terms passing the fuzzy-threshold test against the
haystack.  Non-emptiness is needed: with an empty bucket the membership
premise is vacuous but the percentage is round(0 / max(1, 0)) = 0. -/
theorem coverage_formula_and_full_match (sim : String → String → ℚ)
    (today : PyDate) (resume : Resume) (jd : Jd)
    (hsim : ∀ s, sim s s = 100) :
    ((analyzeNormalizedJd jd).skills ≠ [] →
      (∀ t ∈ (analyzeNormalizedJd jd).skills,
          t ∈ canonicalizeTerms resume.skills) →
      (analyze sim today resume jd).sections.skillsCoveragePct = 100
        ∧ (analyze sim today resume jd).missing = [])
    ∧ (analyze sim today resume jd).sections.skillsCoveragePct
        = pyRound (100 * (((analyzeNormalizedJd jd).skills.countP
            fun t => (analyzeHaystack resume).any
              fun h => FUZZY_THRESHOLD ≤ sim t h : ℕ) : ℚ)
          / max 1 (((analyzeNormalizedJd jd).skills.length : ℚ)))
    ∧ (analyze sim today resume jd).sections.preferredCoveragePct
        = pyRound (100 * (((analyzeJdPref jd).countP
            fun t => (analyzeHaystack resume).any
              fun h => FUZZY_THRESHOLD ≤ sim t h : ℕ) : ℚ)
          / max 1 (((analyzeJdPref jd).length : ℚ)))
    ∧ (analyze sim today resume jd).sections.domainCoveragePct
        = pyRound (100 * (((analyzeDomainTerms jd).countP
            fun t => (analyzeHaystack resume).any
              fun h => FUZZY_THRESHOLD ≤ sim t h : ℕ) : ℚ)
          / max 1 (((analyzeDomainTerms jd).length : ℚ))) := by
  refine ⟨?_, ?_, ?_, ?_⟩
  · intro hne hsub
    have hall : ∀ t ∈ (analyzeNormalizedJd jd).skills,
        ((analyzeHaystack resume).any
          fun h => FUZZY_THRESHOLD ≤ sim t h) = true := by
      intro t ht
      apply List.any_eq_true.2
      refine ⟨t, ?_, ?_⟩
      · exact mem_dedupeKeepOrder_of_mem
          (List.mem_append_left _ (hsub t ht))
      · simp [hsim t, FUZZY_THRESHOLD]
        norm_num
    have hcov : analyzeCoreCov sim resume jd
        = ((analyzeNormalizedJd jd).skills, []) :=
      coverageCanonical_all_present sim _ _ hall
    constructor
    · have hpct : (analyze sim today resume jd).sections.skillsCoveragePct
          = pyRound (100 * ((analyzeCoreCov sim resume jd).1.length : ℚ)
            / max 1 (((analyzeNormalizedJd jd).skills.length : ℚ))) := rfl
      rw [hpct, hcov]
      dsimp only
      have hn : (1 : ℚ) ≤ ((analyzeNormalizedJd jd).skills.length : ℚ) := by
        have := List.length_pos.2 hne
        exact_mod_cast this
      rw [max_eq_right hn]
      have hne0 : ((analyzeNormalizedJd jd).skills.length : ℚ) ≠ 0 := by
        linarith
      rw [mul_div_assoc, div_self hne0, mul_one]
      rw [show (100 : ℚ) = ((100 : ℤ) : ℚ) by norm_num]
      exact pyRound_intCast 100
    · have hmiss : (analyze sim today resume jd).missing
          = dedupeKeepOrder (analyzeCoreCov sim resume jd).2 := rfl
      rw [hmiss, hcov]
      rfl
  · have hpct : (analyze sim today resume jd).sections.skillsCoveragePct
        = pyRound (100 * (((analyzeNormalizedJd jd).skills.filter
            fun t => (analyzeHaystack resume).any
              fun h => FUZZY_THRESHOLD ≤ sim t h).length : ℚ)
          / max 1 (((analyzeNormalizedJd jd).skills.length : ℚ))) := rfl
    rw [hpct, List.countP_eq_length_filter]
  · have hpct : (analyze sim today resume jd).sections.preferredCoveragePct
        = pyRound (100 * (((analyzeJdPref jd).filter
            fun t => (analyzeHaystack resume).any
              fun h => FUZZY_THRESHOLD ≤ sim t h).length : ℚ)
          / max 1 (((analyzeJdPref jd).length : ℚ))) := rfl
    rw [hpct, List.countP_eq_length_filter]
  · have hpct : (analyze sim today resume jd).sections.domainCoveragePct
        = pyRound (100 * (((analyzeDomainTerms jd).filter
            fun t => (analyzeHaystack resume).any
              fun h => FUZZY_THRESHOLD ≤ sim t h).length : ℚ)
          / max 1 (((analyzeDomainTerms jd).length : ℚ))) := rfl
    rw [hpct, List.countP_eq_length_filter]

/-- C5 witness: with a reflexive scorer, a résumé whose skills are
["Python"] fully covers the JD requiring "Python": 100% core coverage and
no missing terms. -/
theorem coverage_formula_full_match_witness :
    (analyze (fun _ _ => (100 : ℚ)) ⟨2024, 10, 1⟩
        { skills := ["Python"] }
        { required := ["Python"] }).sections.skillsCoveragePct = 100
      ∧ (analyze (fun _ _ => (100 : ℚ)) ⟨2024, 10, 1⟩
        { skills := ["Python"] } { required := ["Python"] }).missing = [] :=
  (coverage_formula_and_full_match (fun _ _ => (100 : ℚ)) ⟨2024, 10, 1⟩
      { skills := ["Python"] } { required := ["Python"] }
      (fun s => rfl)).1 (by decide) (by decide)

/-- C5 counterexample: on the empty JD the membership premise of the
claim is vacuously true, yet `skillsCoveragePct` is 0, not 100 — the
claim needs the non-empty-bucket amendment. -/
theorem coverage_vacuous_not_hundred :
    (∀ t ∈ (analyzeNormalizedJd emptyJd).skills,
        t ∈ canonicalizeTerms emptyResume.skills)
      ∧ (analyze (fun _ _ => (100 : ℚ)) ⟨2024, 10, 1⟩ emptyResume
          emptyJd).sections.skillsCoveragePct ≠ 100 := by
  constructor
  · intro t ht
    have h : (analyzeNormalizedJd emptyJd).skills = ([] : List String) := rfl
    rw [h] at ht
    exact absurd ht (List.not_mem_nil t)
  · have hpct : (analyze (fun _ _ => (100 : ℚ)) ⟨2024, 10, 1⟩ emptyResume
        emptyJd).sections.skillsCoveragePct
      = pyRound (100 * ((0 : ℕ) : ℚ) / max 1 ((0 : ℕ) : ℚ)) := rfl
    rw [hpct]
    have h0 : (100 : ℚ) * ((0 : ℕ) : ℚ) / max 1 ((0 : ℕ) : ℚ)
        = ((0 : ℤ) : ℚ) := by norm_num
    rw [h0, pyRound_intCast]
    decide

end ResumeSharp
